import Mathlib

/-!
Verification development for the oraccio school-timetable repository.

The definitions below are a shallow embedding of the Python sources:
`src/improved_scheduler.py` (class `ImprovedSchoolScheduler`, the module-level
repair functions and the tryout loop), `src/dataframe/logic.py` and
`src/swapper.py`.  Pure Python functions become Lean functions; the mutable
schedule (a dict day -> dict hour -> list of `ScheduleEntry`) becomes a
function `Day → Nat → List ScheduleEntry` updated functionally; Python code
that can raise (`list.remove` on a missing element, a call with a wrong
number of arguments) returns `Option`/`Except`.
-/

set_option maxHeartbeats 1000000

namespace Oraccio

/-- Days of the school week, as in `self.days = ['LUN','MAR','MER','GIO','VEN']`. -/
inductive Day where
  | LUN | MAR | MER | GIOVEDI | VEN
deriving DecidableEq, Repr

open Day

/-- Name of a day, as the Python string constant. -/
def dayStr : Day → String
  | .LUN => "LUN"
  | .MAR => "MAR"
  | .MER => "MER"
  | .GIOVEDI => "GIO"
  | .VEN => "VEN"

/-- The list `self.days`. -/
def days : List Day := [.LUN, .MAR, .MER, .GIOVEDI, .VEN]

/-- The list `self.hours = list(range(8, 15))`. -/
def hours : List Nat := [8, 9, 10, 11, 12, 13, 14]

/-- The namedtuple `ScheduleEntry = namedtuple('ScheduleEntry', ['class_name', 'teacher', 'subject'])`. -/
structure ScheduleEntry where
  class_name : String
  teacher : String
  subject : String
deriving DecidableEq, Repr

/-- The schedule grid `self.schedule`: a dict from day to dict from hour to a
list of `ScheduleEntry`.  Entries at an hour outside `hours` are never read
nor written by the embedded operations. -/
def Schedule : Type := Day → Nat → List ScheduleEntry

/-- The empty schedule built by `create_empty_schedule`. -/
def emptySchedule : Schedule := fun _ _ => []

/-- Functional update of one grid cell. -/
def updateCell (s : Schedule) (d : Day) (h : Nat) (l : List ScheduleEntry) : Schedule :=
  fun d' h' => if d' = d ∧ h' = h then l else s d' h'

/-- The table `ALLOWED_14`: days whose hour 14 is restricted, with the allow-list. -/
def allowed14 : Day → Option (List String)
  | .LUN => some ["3E", "4E", "5E", "1L", "1I", "2L", "2I", "3L"]
  | .MER => some ["1L", "1I", "2L", "2I", "3L"]
  | .VEN => some ["3L"]
  | _ => none

/-- `max_hours_allowed(day, class_name)`. -/
def maxHoursAllowed (d : Day) (c : String) : Nat :=
  if d = .MAR ∨ d = .GIOVEDI then 7
  else if c ∈ (allowed14 d).getD [] then 7
  else 6

/-- Number of entries of a cell taught by a given teacher (one inner loop of
`get_teacher_hours_on_day`). -/
def cellTeacherCount (l : List ScheduleEntry) (t : String) : Nat :=
  l.countP (fun e => e.teacher == t)

/-- Number of entries of a cell belonging to a given class. -/
def cellClassCount (l : List ScheduleEntry) (c : String) : Nat :=
  l.countP (fun e => e.class_name == c)

/-- `get_teacher_hours_on_day(teacher, day)`. -/
def getTeacherHoursOnDay (s : Schedule) (t : String) (d : Day) : Nat :=
  (hours.map (fun h => cellTeacherCount (s d h) t)).sum

/-- `get_class_hours_on_day(class_name, day)`. -/
def getClassHoursOnDay (s : Schedule) (c : String) (d : Day) : Nat :=
  (hours.map (fun h => cellClassCount (s d h) c)).sum

/-- `get_teacher_hours_for_class(teacher, class_name, day)`, which is also the
inner double loop of `is_slot_available` counting the teacher-class hours of
the day. -/
def teacherClassHoursToday (s : Schedule) (t c : String) (d : Day) : Nat :=
  (hours.map (fun h => (s d h).countP (fun e => e.teacher == t && e.class_name == c))).sum

/-- `is_slot_available(teacher, class_name, day, hour)`.  The Python early
returns become one conjunction, in the order the checks are written. -/
def isSlotAvailable (s : Schedule) (t c : String) (d : Day) (h : Nat) : Bool :=
  (match allowed14 d with
   | some allowed => !(h == 14 && !(allowed.contains c))
   | none => true) &&
  (s d h).all (fun e => !(e.teacher == t)) &&
  (s d h).all (fun e => !(e.class_name == c)) &&
  decide (getTeacherHoursOnDay s t d < 5) &&
  decide (getClassHoursOnDay s c d < maxHoursAllowed d c) &&
  decide (teacherClassHoursToday s t c d < 2)

/-- `assign_slot(teacher, class_name, subject, day, hour)`: appends the entry to
the cell.  (The Python method also increments the bookkeeping counters
`teacher_assignments` and `class_assignments`, which are never read by any
operation modelled here.) -/
def assignSlot (s : Schedule) (t c subj : String) (d : Day) (h : Nat) : Schedule :=
  updateCell s d h (s d h ++ [⟨c, t, subj⟩])

/-- `is_teacher_free_at(teacher, day, hour)`. -/
def isTeacherFreeAt (s : Schedule) (t : String) (d : Day) (h : Nat) : Bool :=
  (s d h).all (fun e => !(e.teacher == t))

/-- `sanity_check_schedule()`: for every slot it checks teacher
double-booking, class double-booking and, for each entry of the slot, the
teacher daily limit, the class daily limit and the teacher-class daily limit.
The Python function returns `False` at the first violation (printing its
kind) and `True` when no check fires; the boolean result is modelled, the
prints are not. -/
def sanityCheckSchedule (s : Schedule) : Bool :=
  days.all fun d => hours.all fun h =>
    let cell := s d h
    let teachers := cell.map (·.teacher)
    let classes := cell.map (·.class_name)
    (teachers.dedup.length == teachers.length) &&
    (classes.dedup.length == classes.length) &&
    cell.all (fun e =>
      decide (getTeacherHoursOnDay s e.teacher d ≤ 5) &&
      decide (getClassHoursOnDay s e.class_name d ≤ maxHoursAllowed d e.class_name) &&
      decide (teacherClassHoursToday s e.teacher e.class_name d ≤ 2))

/-! ### The grid invariants, stated from the specification's words (§3). -/

/-- Invariant 1: for every slot, no two placements share the same teacher. -/
def InvTeacherExclusive (s : Schedule) : Prop :=
  ∀ d : Day, ∀ h ∈ hours, ((s d h).map (·.teacher)).Nodup

/-- Invariant 2: for every slot, no two placements share the same class. -/
def InvClassExclusive (s : Schedule) : Prop :=
  ∀ d : Day, ∀ h ∈ hours, ((s d h).map (·.class_name)).Nodup

/-- Invariant 3: for every teacher and day, at most 5 placements. -/
def InvTeacherDailyCap (s : Schedule) : Prop :=
  ∀ (t : String) (d : Day), getTeacherHoursOnDay s t d ≤ 5

/-- Invariant 4: for every teacher, class and day, at most 2 placements. -/
def InvTeacherClassDailyCap (s : Schedule) : Prop :=
  ∀ (t c : String) (d : Day), teacherClassHoursToday s t c d ≤ 2

/-- Invariant 5: for every class and day, at most `max_hours_allowed` placements. -/
def InvClassDailyCap (s : Schedule) : Prop :=
  ∀ (c : String) (d : Day), getClassHoursOnDay s c d ≤ maxHoursAllowed d c

/-- Invariant 6: a placement at the last hour (14) of a restricted day has its
class in that day's allow-list. -/
def InvLastHourAllowList (s : Schedule) : Prop :=
  ∀ d : Day, ∀ e ∈ s d 14, ∀ allowed, allowed14 d = some allowed → e.class_name ∈ allowed

/-- The conjunction of invariants 1-5 (the ones `sanity_check_schedule` verifies). -/
def GridInvariants (s : Schedule) : Prop :=
  InvTeacherExclusive s ∧ InvClassExclusive s ∧ InvTeacherDailyCap s ∧
    InvTeacherClassDailyCap s ∧ InvClassDailyCap s

/-- One `assign_slot(teacher, class, subject, day, hour)` call. -/
structure AssignCall where
  teacher : String
  class_name : String
  subject : String
  day : Day
  hour : Nat
deriving DecidableEq, Repr

/-- Replay a sequence of `assign_slot` calls over a schedule. -/
def applyCalls : Schedule → List AssignCall → Schedule
  | s, [] => s
  | s, k :: rest => applyCalls (assignSlot s k.teacher k.class_name k.subject k.day k.hour) rest

/-- A call sequence is legal when every call addresses a grid hour and
`is_slot_available` returns true on the schedule state at that moment.  (The
hour-in-grid condition reflects that `is_slot_available` and `assign_slot`
index `self.schedule[day][hour]`, defined only for the seven grid hours.) -/
def legalCallSeq : Schedule → List AssignCall → Bool
  | _, [] => true
  | s, k :: rest =>
    hours.contains k.hour &&
    isSlotAvailable s k.teacher k.class_name k.day k.hour &&
    legalCallSeq (assignSlot s k.teacher k.class_name k.subject k.day k.hour) rest

/-- Schedule with a single placement of class 3E at hour 14 of MER, a day
whose allow-list does not contain 3E. -/
def lastHourViolation : Schedule :=
  fun d h => if d = .MER ∧ h = 14 then [⟨"3E", "T1", "MAT"⟩] else []

/-! ### The swap operation `swap_class_for_professor`. -/

/-- Python `list.remove(x)`: removes the first element equal to `x`, or raises
`ValueError` (modelled as `none`) when no element equals `x`. -/
def removeFirst : List ScheduleEntry → ScheduleEntry → Option (List ScheduleEntry)
  | [], _ => none
  | x :: xs, e => if x = e then some xs else (removeFirst xs e).map (x :: ·)

/-- Resulting grid of the both-entries branch of `swap_class_for_professor`,
given the two removal results: remove both entries, then append the two
rebuilt entries at the exchanged slots, in source order. -/
def swapBothResult (s : Schedule) (d1 : Day) (h1 : Nat) (d2 : Day) (h2 : Nat)
    (p : String) (e1 e2 : ScheduleEntry) (l1 l2 : List ScheduleEntry) : Schedule :=
  let s1 := updateCell s d1 h1 l1
  let s2 := updateCell s1 d2 h2 l2
  let s3 := updateCell s2 d1 h1 (s2 d1 h1 ++ [⟨e2.class_name, p, e2.subject⟩])
  updateCell s3 d2 h2 (s3 d2 h2 ++ [⟨e1.class_name, p, e1.subject⟩])

/-- Resulting grid of the one-entry branches of `swap_class_for_professor`:
remove the professor's entry at the occupied slot and append the rebuilt
entry at the other slot. -/
def swapMoveResult (s : Schedule) (dFrom : Day) (hFrom : Nat) (dTo : Day) (hTo : Nat)
    (e : ScheduleEntry) (p : String) (l : List ScheduleEntry) : Schedule :=
  let s1 := updateCell s dFrom hFrom l
  updateCell s1 dTo hTo (s1 dTo hTo ++ [⟨e.class_name, p, e.subject⟩])

/-- `swap_class_for_professor(day1, hour1, day2, hour2, professor)`.  The two
`for` loops locating the professor's entries run before any mutation, so both
`find?` calls read the original schedule; the removals then happen in
sequence (in the both-entries branch the second removal reads the
already-updated grid), followed by the appends.  A failing removal (Python
`ValueError`) yields `none`. -/
def swapClassForProfessor (s : Schedule) (d1 : Day) (h1 : Nat) (d2 : Day) (h2 : Nat)
    (p : String) : Option (Bool × Schedule) :=
  match (s d1 h1).find? (fun e => e.teacher == p), (s d2 h2).find? (fun e => e.teacher == p) with
  | some e1, some e2 =>
    (removeFirst (s d1 h1) e1).bind fun l1 =>
      (removeFirst ((updateCell s d1 h1 l1) d2 h2) e2).bind fun l2 =>
        some (true, swapBothResult s d1 h1 d2 h2 p e1 e2 l1 l2)
  | some e1, none =>
    (removeFirst (s d1 h1) e1).map fun l1 =>
      (true, swapMoveResult s d1 h1 d2 h2 e1 p l1)
  | none, some e2 =>
    (removeFirst (s d2 h2) e2).map fun l2 =>
      (true, swapMoveResult s d2 h2 d1 h1 e2 p l2)
  | none, none => some (false, s)

/-- Schedule used for the C10 example: professor P placed only at (LUN, 8). -/
def singlePlacement : Schedule :=
  fun d h => if d = .LUN ∧ h = 8 then [⟨"C1", "P", "MAT"⟩] else []

/-- Schedule used for the C6 witness: professor P placed once at (LUN, 8) and
once at (MAR, 8). -/
def swapPairState : Schedule :=
  fun d h =>
    if d = .LUN ∧ h = 8 then [⟨"A", "P", "x"⟩]
    else if d = .MAR ∧ h = 8 then [⟨"B", "P", "y"⟩]
    else []

/-- Schedule used for the C6 counterexample: professor P with two placements
in the same cell (LUN, 8). -/
def doubledPlacement : Schedule :=
  fun d h => if d = .LUN ∧ h = 8 then [⟨"A", "P", "x"⟩, ⟨"B", "P", "y"⟩] else []

/-! ### The greedy priority allocator `create_schedule`. -/

/-- `get_available_slots(teacher, class_name)`: all (day, hour) pairs, in
day-major order, whose slot is available. -/
def getAvailableSlots (s : Schedule) (t c : String) : List (Day × Nat) :=
  days.flatMap fun d =>
    hours.filterMap fun h => if isSlotAvailable s t c d h then some (d, h) else none

/-- One row of `self.assignments`: `(teacher, class, subject) -> hours_needed`. -/
structure Obligation where
  teacher : String
  class_name : String
  subject : String
  hours_needed : Nat
deriving DecidableEq, Repr

/-- One row of the `failed_assignments` table: columns
`teacher, class_name, subject, remaining, allocated`. -/
structure FailedAssignment where
  teacher : String
  class_name : String
  subject : String
  remaining : Nat
  allocated : Nat
deriving DecidableEq, Repr

/-- The priority `hours_needed / available_slots` of an obligation against a
grid, with zero available slots mapped to infinite priority
(`float('inf')`).  The Python float division is modelled by exact rational
division. -/
def priorityOf (s : Schedule) (ob : Obligation) : WithTop ℚ :=
  let a := (getAvailableSlots s ob.teacher ob.class_name).length
  if a = 0 then ⊤ else ((ob.hours_needed : ℚ) / (a : ℚ))

/-- Comparison used by `assignment_priority.sort(reverse=True, key=...)`:
earlier means priority at least as large. -/
def priorityGE (s : Schedule) (o1 o2 : Obligation) : Prop :=
  priorityOf s o2 ≤ priorityOf s o1

instance (s : Schedule) : DecidableRel (priorityGE s) :=
  fun o1 o2 => inferInstanceAs (Decidable (priorityOf s o2 ≤ priorityOf s o1))

instance (s : Schedule) : IsTotal Obligation (priorityGE s) :=
  ⟨fun o1 o2 => le_total (priorityOf s o2) (priorityOf s o1)⟩

instance (s : Schedule) : IsTrans Obligation (priorityGE s) :=
  ⟨fun _ _ _ hab hbc => le_trans hbc hab⟩

/-- The obligation list sorted by descending priority (a stable sort, as
Python's `list.sort(reverse=True)`). -/
def allocationOrder (s : Schedule) (obs : List Obligation) : List Obligation :=
  List.insertionSort (priorityGE s) obs

/-- Adjacent-hour occupancy of a teacher around a slot (`teacher_adjacent`). -/
def adjTeacherCount (s : Schedule) (t : String) (d : Day) (h : Nat) : Nat :=
  (([h - 1, h + 1].filter (fun a => hours.contains a)).map
    (fun a => cellTeacherCount (s d a) t)).sum

/-- The candidate score: +10 for a morning hour (`hour <= 11`), plus five per
adjacent hour already taught by the teacher on that day. -/
def slotScore (s : Schedule) (t : String) (d : Day) (h : Nat) : Int :=
  (if h ≤ 11 then 10 else 0) + (adjTeacherCount s t d h : Int) * 5

/-- The `best_slot`/`best_score` scan: start from `(None, -1)` and keep the
first slot of strictly maximal score. -/
def pickBestSlot (s : Schedule) (t : String) (slots : List (Day × Nat)) :
    Option (Day × Nat) :=
  (slots.foldl
    (fun acc slot =>
      if slotScore s t slot.1 slot.2 > acc.2 then (some slot, slotScore s t slot.1 slot.2)
      else acc)
    ((none : Option (Day × Nat)), (-1 : Int))).1

/-- The `for attempt in range(hours_needed)` loop of `create_schedule`: on
each attempt recompute the available slots, pick the best, assign it;
stop early when no slot remains.  Returns the grid and the number of hours
allocated for this obligation. -/
def allocateHours (s : Schedule) (t c subj : String) : Nat → Schedule × Nat
  | 0 => (s, 0)
  | n + 1 =>
    match pickBestSlot s t (getAvailableSlots s t c) with
    | none => (s, 0)
    | some (d, h) =>
      let r := allocateHours (assignSlot s t c subj d h) t c subj n
      (r.1, r.2 + 1)

/-- The main loop of `create_schedule` over the prioritized obligations:
returns the grid, the total allocated hours, and the failed-assignment rows
(one per obligation not fully allocated, holding the remaining and allocated
hours). -/
def processObligations : List Obligation → Schedule → Schedule × Nat × List FailedAssignment
  | [], s => (s, 0, [])
  | ob :: rest, s =>
    let r := allocateHours s ob.teacher ob.class_name ob.subject ob.hours_needed
    let rrest := processObligations rest r.1
    (rrest.1, r.2 + rrest.2.1,
      if r.2 < ob.hours_needed then
        ⟨ob.teacher, ob.class_name, ob.subject, ob.hours_needed - r.2, r.2⟩ :: rrest.2.2
      else rrest.2.2)

/-- `create_schedule()`: sort the obligations by priority computed against
the current (initially empty) grid, then allocate in that order.  (The
Python method additionally returns `success_rate` and the total required
hours, both derived from these values.) -/
def createSchedule (obs : List Obligation) : Schedule × Nat × List FailedAssignment :=
  processObligations (allocationOrder emptySchedule obs) emptySchedule

/-- Total number of placements stored in the grid. -/
def totalPlacements (s : Schedule) : Nat :=
  (days.map (fun d => (hours.map (fun h => (s d h).length)).sum)).sum

/-! ### The dataframe grid of `src/dataframe/logic.py` and the permutation
resolver of `src/swapper.py`. -/

/-- The namedtuple `classe = namedtuple('classe', ['teacher', 'day_hour'])`. -/
structure Classe where
  teacher : String
  day_hour : String
deriving DecidableEq, Repr

/-- A pandas DataFrame indexed by teacher with one column per day-hour label;
a cell holds the classroom taught there, `none` modelling NaN. -/
structure DFrame where
  idx : List String
  cols : List String
  cell : String → String → Option String

/-- Assignment `df.loc[t, col] = v`. -/
def dfSet (df : DFrame) (t col : String) (v : Option String) : DFrame :=
  { df with cell := fun t' col' => if t' = t ∧ col' = col then v else df.cell t' col' }

/-- `swap(df, classe_1, classe_2)`: the temporary is read first, the value of
the second cell is read before any write, then the two writes happen in
order. -/
def dfSwap (df : DFrame) (c1 c2 : Classe) : DFrame :=
  let tmp := df.cell c1.teacher c1.day_hour
  let df1 := dfSet df c1.teacher c1.day_hour (df.cell c2.teacher c2.day_hour)
  dfSet df1 c2.teacher c2.day_hour tmp

/-- The non-null (teacher, value) pairs of a column, in index order
(`x[~pd.isnull(x)]`). -/
def columnPairs (df : DFrame) (col : String) : List (String × String) :=
  df.idx.filterMap fun t => (df.cell t col).map fun v => (t, v)

/-- The non-null values of a column, in index order. -/
def columnValues (df : DFrame) (col : String) : List String :=
  df.idx.filterMap fun t => df.cell t col

/-- `duplicated_indices_in_column(df, column_name)`: the index labels of the
non-null rows whose value is duplicated in the column.  Pandas
`Series.duplicated(keep=False)` marks every element whose value occurs more
than once in the series. -/
def duplicatedIndicesInColumn (df : DFrame) (col : String) : List String :=
  let nonNull := columnPairs df col
  (nonNull.filter fun p => 2 ≤ nonNull.countP fun p2 => p2.2 == p.2).map (·.1)

/-- `permute(df, classe_1, classe_2)`: swap the two cells unconditionally,
then compute the duplicated indices of the two affected columns.  The Python
function mutates `df` in place and returns the two conflict pairs; here the
updated frame is returned alongside them. -/
def permute (df : DFrame) (c1 c2 : Classe) :
    ((List String × String) × (List String × String)) × DFrame :=
  let df' := dfSwap df c1 c2
  (((duplicatedIndicesInColumn df' c1.day_hour, c1.day_hour),
    (duplicatedIndicesInColumn df' c2.day_hour, c2.day_hour)), df')

/-- Modelled from the claim's words, for comparison with the code: the set of
teachers that appear more than once among the cell values of a column of the
grid. -/
def teachersAppearingMoreThanOnce (df : DFrame) (col : String) : List String :=
  df.idx.filter fun t => 2 ≤ (columnValues df col).count t

/-- `find_solution(input_orario, teacher, time_1, time_2, max_iterations)`
from `src/swapper.py`.  The seed swap and its conflict detection are the
`logic.permute` call; the `while conflicts and iterations < max_iterations`
loop body always raises in the source — its first step calls
`logic.find_next_available_slot(orario, conflicting_teacher, seen,
curricula_data.not_allowed)` with four positional arguments while
`find_next_available_slot(df, teacher, seen)` takes three, a `TypeError` —
so entering the loop is modelled as `Except.error ()`.  When the loop is not
entered, `iterations` is 0 and the function returns `(None, None)` if
`iterations == max_iterations`, else the permuted grid and the swap
history. -/
def findSolution (df : DFrame) (teacher time1 time2 : String) (maxIter : Nat) :
    Except Unit (Option (DFrame × List (Classe × Classe))) :=
  let c1 : Classe := ⟨teacher, time1⟩
  let c2 : Classe := ⟨teacher, time2⟩
  let r := permute df c1 c2
  let conflicts := !(r.1.1.1.isEmpty) || !(r.1.2.1.isEmpty)
  if conflicts ∧ 0 < maxIter then Except.error ()
  else if maxIter = 0 then Except.ok none
  else Except.ok (some (r.2, [(c1, c2)]))

/-- Grid used for the C9 counterexample: two teachers, T1 with classes A at
LUN8 and B at LUN9, T2 with class B at LUN8. -/
def conflictGridNine : DFrame where
  idx := ["T1", "T2"]
  cols := ["LUN8", "LUN9"]
  cell := fun t col =>
    if t = "T1" ∧ col = "LUN8" then some "A"
    else if t = "T1" ∧ col = "LUN9" then some "B"
    else if t = "T2" ∧ col = "LUN8" then some "B"
    else none

/-- Grid used for the C8 failing input: same shape as the C9 grid — after the
seed swap, column LUN8 holds the class value B twice. -/
def conflictGridEight : DFrame where
  idx := ["T1", "T2"]
  cols := ["LUN8", "LUN9"]
  cell := fun t col =>
    if t = "T1" ∧ col = "LUN8" then some "A"
    else if t = "T1" ∧ col = "LUN9" then some "B"
    else if t = "T2" ∧ col = "LUN8" then some "B"
    else none

/-! ### The repair-engine helpers of `src/improved_scheduler.py`. -/

/-- `what_class_is_taught_by_teacher_at(teacher, day, hour)`: the class and
subject of the teacher's first entry at the slot, `(None, None)` modelled as
`none`. -/
def whatClassIsTaughtByTeacherAt (s : Schedule) (t : String) (d : Day) (h : Nat) :
    Option (String × String) :=
  ((s d h).find? (fun e => e.teacher == t)).map (fun e => (e.class_name, e.subject))

/-- `professor_availability_on_day(teacher, day)`: the grid hours at which
the teacher has no entry.  (Python builds `list(set(self.hours) - scheduled)`;
for the small-integer hours 8..14 CPython iterates that set in ascending
order, which this filter reproduces.) -/
def professorAvailabilityOnDay (s : Schedule) (t : String) (d : Day) : List Nat :=
  hours.filter (fun h => isTeacherFreeAt s t d h)

/-- `professor_availability(teacher)`: days with a nonempty availability, in
day order (dict insertion order). -/
def professorAvailability (s : Schedule) (t : String) : List (Day × List Nat) :=
  days.filterMap fun d =>
    let av := professorAvailabilityOnDay s t d
    if av.isEmpty then none else some (d, av)

/-- `can_teacher_teach_class_on_slot(scheduler, teacher, class_name, day, hour)`:
teacher free at the slot, under the daily cap, under the teacher-class daily
cap.  (It does not check the class daily cap, class double-booking, or the
last-hour allow-list.) -/
def canTeacherTeachClassOnSlot (s : Schedule) (t c : String) (d : Day) (h : Nat) : Bool :=
  isTeacherFreeAt s t d h &&
  decide (getTeacherHoursOnDay s t d < 5) &&
  decide (teacherClassHoursToday s t c d < 2)

/-- Per-day entry count for an arbitrary predicate, generalizing
`get_teacher_hours_on_day`, `get_class_hours_on_day` and
`get_teacher_hours_for_class`. -/
def dayPredSum (s : Schedule) (d : Day) (pr : ScheduleEntry → Bool) : Nat :=
  (hours.map (fun h => (s d h).countP pr)).sum

/-- The full slot-availability validation of one placement present in the
grid, stated from the claim's words: teacher not double-booked, class not
double-booked, last-hour allow-list respected, teacher daily cap, class
daily cap and teacher-class daily cap. -/
def placementValid (s : Schedule) (t c : String) (d : Day) (h : Nat) : Prop :=
  cellTeacherCount (s d h) t = 1 ∧
  cellClassCount (s d h) c = 1 ∧
  (∀ allowed, allowed14 d = some allowed → h = 14 → c ∈ allowed) ∧
  getTeacherHoursOnDay s t d ≤ 5 ∧
  getClassHoursOnDay s c d ≤ maxHoursAllowed d c ∧
  teacherClassHoursToday s t c d ≤ 2

/-- Schedule used for the C4 witness: p1 teaches class X at (LUN, 8), q1
teaches the same class at (MAR, 9). -/
def pairSwapState : Schedule :=
  fun d h =>
    if d = .LUN ∧ h = 8 then [⟨"X", "p1", "m"⟩]
    else if d = .MAR ∧ h = 9 then [⟨"X", "q1", "m"⟩]
    else []

/-! ### The repair pass `insert_missing_classes_via_swap_strategy` and the
module-level tryout loop. -/

/-- The scheduler state the repair pass reads: the grid, the
`failed_assignments` rows and `self.classes`. -/
structure SchedulerState where
  schedule : Schedule
  failedAssignments : List FailedAssignment
  classes : List String

/-- `get_max_classes_at(day, hour)`: every class for hours up to 13 or
unrestricted days, else the day's allow-list. -/
def getMaxClassesAt (classes : List String) (d : Day) (h : Nat) : List String :=
  if h ≤ 13 then classes
  else match allowed14 d with
    | none => classes
    | some cs => cs

/-- `missing_classes_on_schedule()`: slots where fewer distinct classes are
scheduled than allowed, with the list of absent classes.  Python stores
sets; they are modelled as deduplicated lists in first-occurrence order (set
sizes and membership are all later code depends on, since the class lists
are re-sorted by the repair pass). -/
def missingClassesOnSchedule (s : Schedule) (classes : List String) :
    List ((Day × Nat) × List String) :=
  days.flatMap fun d => hours.filterMap fun h =>
    let scheduled := ((s d h).map (·.class_name)).dedup
    let maxSet := (getMaxClassesAt classes d h).dedup
    if scheduled.length < maxSet.length then
      some ((d, h), maxSet.filter (fun c => !(scheduled.contains c)))
    else none

/-- Ascending order on the keys of `sorted(missing_classes.items())`: Python
compares the `(day_string, hour)` tuples lexicographically, with strings
ordered lexicographically by code point (modelled on the character lists). -/
def missingKeyLE (a b : (Day × Nat) × List String) : Prop :=
  (dayStr a.1.1).data < (dayStr b.1.1).data ∨
    (dayStr a.1.1 = dayStr b.1.1 ∧ a.1.2 ≤ b.1.2)

instance : DecidableRel missingKeyLE := fun a b => by
  unfold missingKeyLE
  infer_instance

/-- The sorted item list the repair pass iterates over. -/
def sortedMissing (s : Schedule) (classes : List String) :
    List ((Day × Nat) × List String) :=
  List.insertionSort missingKeyLE (missingClassesOnSchedule s classes)

/-- `who_is_available_to_teach_class(class_name)`: the (teacher, subject)
pairs of the failed-assignment rows for that class, in row order. -/
def whoIsAvailableToTeachClass (fa : List FailedAssignment) (c : String) :
    List (String × String) :=
  (fa.filter (fun f => f.class_name == c)).map (fun f => (f.teacher, f.subject))

/-- Ascending order on `(teacher, subject)` pairs, as Python's `sorted`:
code-point lexicographic on the strings, modelled on the character lists. -/
def profPairLE (a b : String × String) : Prop :=
  a.1.data < b.1.data ∨ (a.1 = b.1 ∧ ¬ b.2.data < a.2.data)

instance : DecidableRel profPairLE := fun a b => by
  unfold profPairLE
  infer_instance

/-- `sorted(available_profs)`. -/
def sortedProfs (l : List (String × String)) : List (String × String) :=
  List.insertionSort profPairLE l

/-- `sorted(class_list)`: code-point lexicographic order, modelled on the
character lists. -/
def sortedClasses (l : List String) : List String :=
  List.insertionSort (fun a b : String => ¬ b.data < a.data) l

/-- `what_is_professor_teaching_at(teacher, day)`: the (hour, class, subject)
triples of the teacher's entries on a day, in hour and cell order. -/
def whatIsProfessorTeachingAt (s : Schedule) (t : String) (d : Day) :
    List (Nat × String × String) :=
  hours.flatMap fun h =>
    (s d h).filterMap fun e =>
      if e.teacher == t then some (h, e.class_name, e.subject) else none

/-- Append a slot to a teacher's entry of the ordered association list
(first-encounter order, as a Python dict). -/
def assocAdd : List (String × List (Day × Nat)) → String → Day × Nat →
    List (String × List (Day × Nat))
  | [], t, sl => [(t, [sl])]
  | (t', sls) :: rest, t, sl =>
    if t' = t then (t', sls ++ [sl]) :: rest else (t', sls) :: assocAdd rest t sl

/-- `professors_teaching_class_on_slots(scheduler, class_name, slots)`. -/
def profsTeachingClassOnSlots (s : Schedule) (c : String)
    (slots : List (Day × List Nat)) : List (String × List (Day × Nat)) :=
  slots.foldl
    (fun acc p =>
      p.2.foldl
        (fun acc h =>
          (s p.1 h).foldl
            (fun acc e => if e.class_name == c then assocAdd acc e.teacher (p.1, h) else acc)
            acc)
        acc)
    []

/-- Inner loop of `swap_strategy_for_being_busy_on_slot` over one teacher's
slots: `none` when the loop falls through, otherwise the result of the two
swap calls (which is itself `none` if a swap raises). -/
def busyInnerLoop (s : Schedule) (professor otherProf c : String) (day : Day) (hour : Nat) :
    List (Day × Nat) → Option (Option (Bool × Schedule))
  | [] => none
  | (d, h2) :: rest =>
    if d ≠ day ∧ ¬(canTeacherTeachClassOnSlot s otherProf c day hour = true) then
      busyInnerLoop s professor otherProf c day hour rest
    else if canTeacherTeachClassOnSlot s professor c d h2 then
      some ((swapClassForProfessor s day hour d h2 otherProf).bind fun r1 =>
        (swapClassForProfessor r1.2 d h2 day hour professor).map fun r2 => (true, r2.2))
    else busyInnerLoop s professor otherProf c day hour rest

/-- Outer loop of `swap_strategy_for_being_busy_on_slot` over the teachers of
the association list. -/
def busyOuterLoop (s : Schedule) (professor c : String) (day : Day) (hour : Nat) :
    List (String × List (Day × Nat)) → Option (Bool × Schedule)
  | [] => some (false, s)
  | (otherProf, slots) :: rest =>
    if ¬(isTeacherFreeAt s otherProf day hour = true) then
      busyOuterLoop s professor c day hour rest
    else match busyInnerLoop s professor otherProf c day hour slots with
      | some r => r
      | none => busyOuterLoop s professor c day hour rest

/-- `swap_strategy_for_being_busy_on_slot(scheduler, professor, day, hour)`.
When the professor has no entry at the slot, the Python class name is `None`,
no entry matches it, and the strategy returns `False` without touching the
grid. -/
def swapStrategyForBeingBusyOnSlot (s : Schedule) (professor : String) (day : Day)
    (hour : Nat) : Option (Bool × Schedule) :=
  match whatClassIsTaughtByTeacherAt s professor day hour with
  | none => some (false, s)
  | some (c, _) =>
    busyOuterLoop s professor c day hour
      (profsTeachingClassOnSlots s c (professorAvailability s professor))

/-- Inner double loop of `swap_strategy_for_fully_booked` over one teacher's
slots. -/
def bookedInnerLoop (s : Schedule) (availableProf otherProf c : String) (day : Day)
    (h : Nat) : List (Day × Nat) → Option (Option (Bool × Schedule))
  | [] => none
  | (d, h2) :: rest =>
    if isTeacherFreeAt s otherProf day h ∧
        canTeacherTeachClassOnSlot s otherProf c day h = true ∧
        canTeacherTeachClassOnSlot s availableProf c d h2 = true then
      some ((swapClassForProfessor s day h d h2 otherProf).bind fun r1 =>
        (swapClassForProfessor r1.2 d h2 day h availableProf).map fun r2 => (true, r2.2))
    else bookedInnerLoop s availableProf otherProf c day h rest

/-- Loop of `swap_strategy_for_fully_booked` over the teachers of the
association list. -/
def bookedProfLoop (s : Schedule) (availableProf c : String) (day : Day) (h : Nat) :
    List (String × List (Day × Nat)) → Option (Bool × Schedule)
  | [] => some (false, s)
  | (otherProf, slots) :: rest =>
    match bookedInnerLoop s availableProf otherProf c day h slots with
    | some r => r
    | none => bookedProfLoop s availableProf c day h rest

/-- Loop of `swap_strategy_for_fully_booked` over the classes the professor
teaches on the day. -/
def bookedClassLoop (s : Schedule) (availableProf : String) (day : Day) :
    List (Nat × String × String) → Option (Bool × Schedule)
  | [] => some (false, s)
  | (h, c, _) :: rest =>
    match bookedProfLoop s availableProf c day h
        (profsTeachingClassOnSlots s c (professorAvailability s availableProf)) with
    | some (true, s') => some (true, s')
    | some (false, _) => bookedClassLoop s availableProf day rest
    | none => none

/-- `swap_strategy_for_fully_booked(scheduler, available_prof, day)`. -/
def swapStrategyForFullyBooked (s : Schedule) (availableProf : String) (day : Day) :
    Option (Bool × Schedule) :=
  bookedClassLoop s availableProf day (whatIsProfessorTeachingAt s availableProf day)

/-- Outcome of the professor loop for one missing class: the class was
placed (`break`), the pass must abort (`return` after a failed sanity
check), or every candidate was exhausted. -/
inductive ProfOutcome where
  | placed
  | abortedRun
  | exhausted
deriving DecidableEq, Repr

/-- The `assign_slot` followed by `if not scheduler.sanity_check_schedule():
return` and `break` pattern repeated in each branch of the repair pass. -/
def checkAfterAssign (s' : Schedule) : Option (Schedule × ProfOutcome) :=
  if sanityCheckSchedule s' then some (s', .placed)
  else some (s', .abortedRun)

/-- The `for available_prof, available_subject in sorted(available_profs)`
loop of `insert_missing_classes_via_swap_strategy`. -/
def tryProfs (day : Day) (hour : Nat) (cmiss : String) :
    Schedule → List (String × String) → Option (Schedule × ProfOutcome)
  | s, [] => some (s, .exhausted)
  | s, (prof, subj) :: rest =>
    if 2 ≤ teacherClassHoursToday s prof cmiss day then
      tryProfs day hour cmiss s rest
    else if isTeacherFreeAt s prof day hour then
      if getTeacherHoursOnDay s prof day < 5 then
        checkAfterAssign (assignSlot s prof cmiss subj day hour)
      else
        match swapStrategyForFullyBooked s prof day with
        | none => none
        | some (true, s') => checkAfterAssign (assignSlot s' prof cmiss subj day hour)
        | some (false, s') => tryProfs day hour cmiss s' rest
    else
      match swapStrategyForBeingBusyOnSlot s prof day hour with
      | none => none
      | some (true, s') => checkAfterAssign (assignSlot s' prof cmiss subj day hour)
      | some (false, s') => tryProfs day hour cmiss s' rest

/-- The `for class_missing in sorted(class_list)` loop; the boolean is true
when the pass aborted after a failed sanity check. -/
def tryClasses (day : Day) (hour : Nat) (fa : List FailedAssignment) :
    Schedule → List String → Option (Schedule × Bool)
  | s, [] => some (s, false)
  | s, cmiss :: rest =>
    match tryProfs day hour cmiss s (sortedProfs (whoIsAvailableToTeachClass fa cmiss)) with
    | none => none
    | some (s', .abortedRun) => some (s', true)
    | some (s', _) => tryClasses day hour fa s' rest

/-- The `for (day, hour), class_list in sorted(missing_classes.items())` loop. -/
def trySlots (fa : List FailedAssignment) :
    Schedule → List ((Day × Nat) × List String) → Option (Schedule × Bool)
  | s, [] => some (s, false)
  | s, item :: rest =>
    match tryClasses item.1.1 item.1.2 fa s (sortedClasses item.2) with
    | none => none
    | some (s', true) => some (s', true)
    | some (s', false) => trySlots fa s' rest

/-- `insert_missing_classes_via_swap_strategy(scheduler)`: the missing
classes are computed once against the entry state; the boolean is true
exactly when the pass returned early after a failed sanity check.  (`none`
models a Python exception escaping from `swap_class_for_professor`.) -/
def insertMissingClassesViaSwapStrategy (st : SchedulerState) :
    Option (SchedulerState × Bool) :=
  (trySlots st.failedAssignments st.schedule
      (sortedMissing st.schedule st.classes)).map
    fun r => ({ st with schedule := r.1 }, r.2)

/-- The module-level tryout loop: `while missing_classes and tryouts <
max_tryouts: insert_missing_classes_via_swap_strategy(scheduler); ...`.  The
result of the pass, including its abort flag, is ignored by the loop. -/
def tryoutLoop : Nat → SchedulerState → Option SchedulerState
  | 0, st => some st
  | n + 1, st =>
    if (missingClassesOnSchedule st.schedule st.classes).isEmpty then some st
    else match insertMissingClassesViaSwapStrategy st with
      | none => none
      | some (st', _) => tryoutLoop n st'

/-- The `max_tryouts = 10` of the module. -/
def maxTryouts : Nat := 10

/-- A grid with class `X` already placed six times on Monday (hours 8-12 and
14, by six distinct teachers), so that one more Monday placement of `X`
breaks the class daily cap. -/
def repairSchedule0 : Schedule :=
  fun d h =>
    if d = .LUN ∧ h = 8 then [⟨"X", "A", "s"⟩]
    else if d = .LUN ∧ h = 9 then [⟨"X", "B", "s"⟩]
    else if d = .LUN ∧ h = 10 then [⟨"X", "C", "s"⟩]
    else if d = .LUN ∧ h = 11 then [⟨"X", "D", "s"⟩]
    else if d = .LUN ∧ h = 12 then [⟨"X", "E", "s"⟩]
    else if d = .LUN ∧ h = 14 then [⟨"X", "F", "s"⟩]
    else []

/-- A scheduler state on which the repair pass performs an assignment that
fails the subsequent sanity check: teacher `P` still owes an hour of `X` and
teacher `Q` owes five hours of `Y`. -/
def repairState0 : SchedulerState :=
  { schedule := repairSchedule0
    failedAssignments := [⟨"P", "X", "s", 1, 0⟩, ⟨"Q", "Y", "s", 5, 0⟩]
    classes := ["X", "Y"] }

/-! ### Theorems -/

/-- Every `Day` is a member of `days`. -/
theorem mem_days (d : Day) : d ∈ days := by cases d <;> simp [days]

/-! ### Generic counting lemmas. -/

theorem dedup_length_eq_iff {α : Type} [DecidableEq α] (l : List α) :
    l.dedup.length = l.length ↔ l.Nodup := by
  constructor
  · intro hlen
    have hsub : List.Sublist l.dedup l := List.dedup_sublist l
    have : l.dedup = l := hsub.eq_of_length hlen
    simpa [this] using (List.nodup_dedup l)
  · intro hnd
    rw [List.dedup_eq_self.mpr hnd]

theorem countP_pos_of_mem {α : Type} (p : α → Bool) {l : List α} {a : α}
    (ha : a ∈ l) (hpa : p a = true) : 0 < l.countP p := by
  induction l with
  | nil => cases ha
  | cons x xs ih =>
    rcases List.mem_cons.mp ha with h | h
    · subst h; simp [List.countP_cons, hpa]
    · have := ih h
      simp only [List.countP_cons]
      omega

theorem exists_mem_of_countP_pos {α : Type} (p : α → Bool) {l : List α}
    (h : 0 < l.countP p) : ∃ a ∈ l, p a = true := by
  induction l with
  | nil => exact absurd h (by simp)
  | cons x xs ih =>
    by_cases hx : p x = true
    · exact ⟨x, List.mem_cons_self x xs, hx⟩
    · simp only [List.countP_cons, hx] at h
      simp only [Bool.false_eq_true, if_false, Nat.add_zero] at h
      obtain ⟨a, ha, hpa⟩ := ih h
      exact ⟨a, List.mem_cons_of_mem x ha, hpa⟩

/-- A positive daily teacher count exhibits an entry of that teacher on that day. -/
theorem exists_entry_of_teacherHours_pos {s : Schedule} {t : String} {d : Day}
    (h : 0 < getTeacherHoursOnDay s t d) :
    ∃ hr ∈ hours, ∃ e ∈ s d hr, e.teacher = t := by
  unfold getTeacherHoursOnDay at h
  by_contra hno
  push_neg at hno
  have hz : ∀ x ∈ (hours.map (fun hr => cellTeacherCount (s d hr) t)), x = 0 := by
    intro x hx
    obtain ⟨hr, hhr, rfl⟩ := List.mem_map.mp hx
    unfold cellTeacherCount
    by_contra hpos
    obtain ⟨e, he, hpe⟩ := exists_mem_of_countP_pos _ (Nat.pos_of_ne_zero hpos)
    exact hno hr hhr e he (by simpa using hpe)
  rw [List.sum_eq_zero hz] at h
  exact Nat.lt_irrefl 0 h

/-- A positive daily class count exhibits an entry of that class on that day. -/
theorem exists_entry_of_classHours_pos {s : Schedule} {c : String} {d : Day}
    (h : 0 < getClassHoursOnDay s c d) :
    ∃ hr ∈ hours, ∃ e ∈ s d hr, e.class_name = c := by
  unfold getClassHoursOnDay at h
  by_contra hno
  push_neg at hno
  have hz : ∀ x ∈ (hours.map (fun hr => cellClassCount (s d hr) c)), x = 0 := by
    intro x hx
    obtain ⟨hr, hhr, rfl⟩ := List.mem_map.mp hx
    unfold cellClassCount
    by_contra hpos
    obtain ⟨e, he, hpe⟩ := exists_mem_of_countP_pos _ (Nat.pos_of_ne_zero hpos)
    exact hno hr hhr e he (by simpa using hpe)
  rw [List.sum_eq_zero hz] at h
  exact Nat.lt_irrefl 0 h

/-- A positive daily teacher-class count exhibits a matching entry on that day. -/
theorem exists_entry_of_teacherClassHours_pos {s : Schedule} {t c : String} {d : Day}
    (h : 0 < teacherClassHoursToday s t c d) :
    ∃ hr ∈ hours, ∃ e ∈ s d hr, e.teacher = t ∧ e.class_name = c := by
  unfold teacherClassHoursToday at h
  by_contra hno
  push_neg at hno
  have hz : ∀ x ∈ (hours.map (fun hr => (s d hr).countP
      (fun e => e.teacher == t && e.class_name == c))), x = 0 := by
    intro x hx
    obtain ⟨hr, hhr, rfl⟩ := List.mem_map.mp hx
    by_contra hpos
    obtain ⟨e, he, hpe⟩ := exists_mem_of_countP_pos _ (Nat.pos_of_ne_zero hpos)
    simp only [Bool.and_eq_true, beq_iff_eq] at hpe
    exact hno hr hhr e he hpe.1 hpe.2
  rw [List.sum_eq_zero hz] at h
  exact Nat.lt_irrefl 0 h

/-- The sanity check succeeds exactly on schedules satisfying invariants 1-5. -/
theorem sanityCheck_iff_invariants (s : Schedule) :
    sanityCheckSchedule s = true ↔ GridInvariants s := by
  unfold sanityCheckSchedule GridInvariants
  simp only [List.all_eq_true, Bool.and_eq_true, beq_iff_eq, decide_eq_true_eq]
  constructor
  · intro hall
    refine ⟨?_, ?_, ?_, ?_, ?_⟩
    · intro d h hh
      exact (dedup_length_eq_iff _).mp ((hall d (mem_days d) h hh).1.1)
    · intro d h hh
      exact (dedup_length_eq_iff _).mp ((hall d (mem_days d) h hh).1.2)
    · intro t d
      by_cases hpos : 0 < getTeacherHoursOnDay s t d
      · obtain ⟨hr, hhr, e, he, het⟩ := exists_entry_of_teacherHours_pos hpos
        have := (((hall d (mem_days d) hr hhr).2 e he).1).1
        rwa [het] at this
      · omega
    · intro t c d
      by_cases hpos : 0 < teacherClassHoursToday s t c d
      · obtain ⟨hr, hhr, e, he, het, hec⟩ := exists_entry_of_teacherClassHours_pos hpos
        have := ((hall d (mem_days d) hr hhr).2 e he).2
        rwa [het, hec] at this
      · omega
    · intro c d
      by_cases hpos : 0 < getClassHoursOnDay s c d
      · obtain ⟨hr, hhr, e, he, hec⟩ := exists_entry_of_classHours_pos hpos
        have := (((hall d (mem_days d) hr hhr).2 e he).1).2
        rwa [hec] at this
      · omega
  · rintro ⟨h1, h2, h3, h4, h5⟩ d _ h hh
    refine ⟨⟨(dedup_length_eq_iff _).mpr (h1 d h hh), (dedup_length_eq_iff _).mpr (h2 d h hh)⟩, ?_⟩
    intro e _
    exact ⟨⟨h3 e.teacher d, h5 e.class_name d⟩, h4 e.teacher e.class_name d⟩

theorem hours_nodup : hours.Nodup := by decide

theorem sum_map_update_at {α : Type} {l : List α} {a : α}
    (hnd : l.Nodup) (ha : a ∈ l) (f g : α → Nat) (k : Nat)
    (hne : ∀ x ∈ l, x ≠ a → g x = f x) (hat : g a = f a + k) :
    (l.map g).sum = (l.map f).sum + k := by
  induction l with
  | nil => cases ha
  | cons x xs ih =>
    rcases List.mem_cons.mp ha with rfl | hmem
    · have hxs : ∀ y ∈ xs, g y = f y := by
        intro y hy
        exact hne y (List.mem_cons_of_mem _ hy)
          (fun h => (List.nodup_cons.mp hnd).1 (h ▸ hy))
      simp only [List.map_cons, List.sum_cons, hat, List.map_congr_left hxs]
      omega
    · have hgx : g x = f x :=
        hne x (List.mem_cons_self x xs) (fun hxa => (List.nodup_cons.mp hnd).1 (hxa ▸ hmem))
      have := ih (List.nodup_cons.mp hnd).2 hmem
        (fun y hy hya => hne y (List.mem_cons_of_mem _ hy) hya)
      simp only [List.map_cons, List.sum_cons, hgx]
      omega

/-- Effect of appending one entry to a cell on a per-day count. -/
theorem countHours_assign (s : Schedule) (d0 : Day) (h0 : Nat) (e : ScheduleEntry)
    (hh : h0 ∈ hours) (d : Day) (p : ScheduleEntry → Bool) :
    (hours.map (fun h => ((updateCell s d0 h0 (s d0 h0 ++ [e])) d h).countP p)).sum =
      (hours.map (fun h => (s d h).countP p)).sum + (if d = d0 ∧ p e = true then 1 else 0) := by
  by_cases hd : d = d0
  · subst hd
    apply sum_map_update_at hours_nodup hh
    · intro x _ hxne
      simp [updateCell, hxne]
    · simp only [updateCell, and_self, if_pos rfl, true_and, List.countP_append]
      cases hpe : p e <;> simp [List.countP_cons, hpe]
  · have hcell : ∀ h, (updateCell s d0 h0 (s d0 h0 ++ [e])) d h = s d h := by
      intro h; simp [updateCell, hd]
    simp [hcell, hd]

theorem cell_assign (s : Schedule) (t c subj : String) (d0 : Day) (h0 : Nat) (d : Day) (h : Nat) :
    (assignSlot s t c subj d0 h0) d h =
      if d = d0 ∧ h = h0 then s d0 h0 ++ [⟨c, t, subj⟩] else s d h := by
  simp [assignSlot, updateCell]

theorem getTeacherHoursOnDay_assign (s : Schedule) (t c subj : String) (d0 : Day) (h0 : Nat)
    (hh : h0 ∈ hours) (t' : String) (d : Day) :
    getTeacherHoursOnDay (assignSlot s t c subj d0 h0) t' d =
      getTeacherHoursOnDay s t' d + (if d = d0 ∧ t = t' then 1 else 0) := by
  have := countHours_assign s d0 h0 ⟨c, t, subj⟩ hh d (fun e => e.teacher == t')
  simpa [getTeacherHoursOnDay, cellTeacherCount, assignSlot, beq_iff_eq] using this

theorem getClassHoursOnDay_assign (s : Schedule) (t c subj : String) (d0 : Day) (h0 : Nat)
    (hh : h0 ∈ hours) (c' : String) (d : Day) :
    getClassHoursOnDay (assignSlot s t c subj d0 h0) c' d =
      getClassHoursOnDay s c' d + (if d = d0 ∧ c = c' then 1 else 0) := by
  have := countHours_assign s d0 h0 ⟨c, t, subj⟩ hh d (fun e => e.class_name == c')
  simpa [getClassHoursOnDay, cellClassCount, assignSlot, beq_iff_eq] using this

theorem teacherClassHoursToday_assign (s : Schedule) (t c subj : String) (d0 : Day) (h0 : Nat)
    (hh : h0 ∈ hours) (t' c' : String) (d : Day) :
    teacherClassHoursToday (assignSlot s t c subj d0 h0) t' c' d =
      teacherClassHoursToday s t' c' d + (if d = d0 ∧ t = t' ∧ c = c' then 1 else 0) := by
  have := countHours_assign s d0 h0 ⟨c, t, subj⟩ hh d
    (fun e => e.teacher == t' && e.class_name == c')
  simp only [teacherClassHoursToday, assignSlot] at this ⊢
  rw [this]
  by_cases h1 : t = t' <;> by_cases h2 : c = c' <;> simp [h1, h2]

/-- Components of a successful `is_slot_available` check. -/
theorem isSlotAvailable_spec {s : Schedule} {t c : String} {d : Day} {h : Nat}
    (hav : isSlotAvailable s t c d h = true) :
    (∀ e ∈ s d h, e.teacher ≠ t) ∧ (∀ e ∈ s d h, e.class_name ≠ c) ∧
    getTeacherHoursOnDay s t d < 5 ∧ getClassHoursOnDay s c d < maxHoursAllowed d c ∧
    teacherClassHoursToday s t c d < 2 := by
  unfold isSlotAvailable at hav
  simp only [Bool.and_eq_true, List.all_eq_true, Bool.not_eq_true', beq_eq_false_iff_ne,
    decide_eq_true_eq] at hav
  exact ⟨hav.1.1.1.1.2, hav.1.1.1.2, hav.1.1.2, hav.1.2, hav.2⟩

/-- A legal placement preserves the invariants the sanity check verifies. -/
theorem invariants_preserved_by_legal_assign {s : Schedule} {t c subj : String} {d : Day} {h : Nat}
    (hinv : GridInvariants s) (hh : h ∈ hours)
    (hav : isSlotAvailable s t c d h = true) :
    GridInvariants (assignSlot s t c subj d h) := by
  obtain ⟨hT, hC, h5, hM, h2⟩ := isSlotAvailable_spec hav
  obtain ⟨i1, i2, i3, i4, i5⟩ := hinv
  refine ⟨?_, ?_, ?_, ?_, ?_⟩
  · intro d' h' hh'
    rw [cell_assign]
    by_cases hdh : d' = d ∧ h' = h
    · obtain ⟨rfl, rfl⟩ := hdh
      rw [if_pos ⟨rfl, rfl⟩]
      rw [List.map_append, List.nodup_append]
      refine ⟨i1 d' h' hh', by simp, ?_⟩
      intro x hx
      obtain ⟨e, he, rfl⟩ := List.mem_map.mp hx
      simp only [List.map_cons, List.map_nil, List.mem_singleton]
      exact fun hxe => hT e he hxe
    · rw [if_neg hdh]; exact i1 d' h' hh'
  · intro d' h' hh'
    rw [cell_assign]
    by_cases hdh : d' = d ∧ h' = h
    · obtain ⟨rfl, rfl⟩ := hdh
      rw [if_pos ⟨rfl, rfl⟩]
      rw [List.map_append, List.nodup_append]
      refine ⟨i2 d' h' hh', by simp, ?_⟩
      intro x hx
      obtain ⟨e, he, rfl⟩ := List.mem_map.mp hx
      simp only [List.map_cons, List.map_nil, List.mem_singleton]
      exact fun hxe => hC e he hxe
    · rw [if_neg hdh]; exact i2 d' h' hh'
  · intro t' d'
    rw [getTeacherHoursOnDay_assign s t c subj d h hh t' d']
    by_cases hc : d' = d ∧ t = t'
    · rw [if_pos hc]
      have := hc.2 ▸ hc.1 ▸ h5
      omega
    · rw [if_neg hc]; simpa using i3 t' d'
  · intro t' c' d'
    rw [teacherClassHoursToday_assign s t c subj d h hh t' c' d']
    by_cases hc : d' = d ∧ t = t' ∧ c = c'
    · rw [if_pos hc]
      have := hc.2.2 ▸ hc.2.1 ▸ hc.1 ▸ h2
      omega
    · rw [if_neg hc]; simpa using i4 t' c' d'
  · intro c' d'
    rw [getClassHoursOnDay_assign s t c subj d h hh c' d']
    by_cases hc : d' = d ∧ c = c'
    · rw [if_pos hc]
      have := hc.2 ▸ hc.1 ▸ hM
      have hmax : maxHoursAllowed d c = maxHoursAllowed d' c' := by rw [hc.1, hc.2]
      omega
    · rw [if_neg hc]; simpa using i5 c' d'

theorem invariants_preserved_by_legal_seq {s : Schedule} {calls : List AssignCall}
    (hinv : GridInvariants s) (hleg : legalCallSeq s calls = true) :
    GridInvariants (applyCalls s calls) := by
  induction calls generalizing s with
  | nil => exact hinv
  | cons k rest ih =>
    unfold legalCallSeq at hleg
    simp only [Bool.and_eq_true] at hleg
    have hhmem : k.hour ∈ hours := by
      have := hleg.1.1
      simpa [List.contains_iff_exists_mem_beq, beq_iff_eq] using this
    exact ih (invariants_preserved_by_legal_assign hinv hhmem hleg.1.2) hleg.2

theorem gridInvariants_empty : GridInvariants emptySchedule := by
  refine ⟨?_, ?_, ?_, ?_, ?_⟩ <;>
    simp [InvTeacherExclusive, InvClassExclusive, InvTeacherDailyCap, InvTeacherClassDailyCap,
      InvClassDailyCap, emptySchedule, getTeacherHoursOnDay, getClassHoursOnDay,
      teacherClassHoursToday, cellTeacherCount, cellClassCount, hours]

/-- C1: starting from the empty schedule, any sequence of `assign_slot` calls
each guarded by a true `is_slot_available` check leaves a schedule on which
`sanity_check_schedule` returns true. -/
theorem C1_legal_sequences_pass_sanity_check (calls : List AssignCall)
    (hleg : legalCallSeq emptySchedule calls = true) :
    sanityCheckSchedule (applyCalls emptySchedule calls) = true :=
  (sanityCheck_iff_invariants _).mpr
    (invariants_preserved_by_legal_seq gridInvariants_empty hleg)

/-- Witness for C1: a concrete legal two-call sequence. -/
theorem C1_witness :
    legalCallSeq emptySchedule
        [⟨"T1", "C1", "MAT", .LUN, 8⟩, ⟨"T2", "C1", "FIS", .LUN, 9⟩] = true ∧
      sanityCheckSchedule (applyCalls emptySchedule
        [⟨"T1", "C1", "MAT", .LUN, 8⟩, ⟨"T2", "C1", "FIS", .LUN, 9⟩]) = true :=
  ⟨by decide, C1_legal_sequences_pass_sanity_check _ (by decide)⟩

/-- C2 (amended): the sanity check reports a failure if and only if some slot
violates one of invariants 1-5; invariant 6 (the last-hour allow-list) is not
re-verified, and the result is a bare boolean (violation details are only
printed). -/
theorem C2_sanity_check_verifies_invariants_one_to_five (s : Schedule) :
    sanityCheckSchedule s = true ↔ GridInvariants s :=
  sanityCheck_iff_invariants s

/-- Counterexample to C2 as stated: a placement at the last hour of MER whose
class is not in MER's allow-list violates invariant 6, yet
`sanity_check_schedule` reports no violation. -/
theorem C2_counterexample_last_hour_not_checked :
    sanityCheckSchedule lastHourViolation = true ∧ ¬ InvLastHourAllowList lastHourViolation := by
  constructor
  · decide
  · intro hinv
    have := hinv .MER ⟨"3E", "T1", "MAT"⟩ (by simp [lastHourViolation]) _ rfl
    simp at this

theorem removeFirst_isSome_of_mem {l : List ScheduleEntry} {e : ScheduleEntry}
    (he : e ∈ l) : ∃ l', removeFirst l e = some l' := by
  induction l with
  | nil => cases he
  | cons x xs ih =>
    by_cases hx : x = e
    · exact ⟨xs, by simp [removeFirst, hx]⟩
    · rcases List.mem_cons.mp he with h | h
      · exact absurd h.symm hx
      · obtain ⟨l', hl'⟩ := ih h
        exact ⟨x :: l', by simp [removeFirst, hx, hl']⟩

theorem removeFirst_perm {l l' : List ScheduleEntry} {e : ScheduleEntry}
    (hrm : removeFirst l e = some l') : l.Perm (e :: l') := by
  induction l generalizing l' with
  | nil => simp [removeFirst] at hrm
  | cons x xs ih =>
    by_cases hx : x = e
    · simp only [removeFirst, if_pos hx] at hrm
      cases hrm
      exact hx ▸ List.Perm.refl _
    · simp only [removeFirst, if_neg hx, Option.map_eq_some'] at hrm
      obtain ⟨l'', hl'', rfl⟩ := hrm
      exact ((ih hl'').cons x).trans (List.Perm.swap e x l'')

theorem removeFirst_countP {l l' : List ScheduleEntry} {e : ScheduleEntry}
    (hrm : removeFirst l e = some l') (q : ScheduleEntry → Bool) :
    l.countP q = l'.countP q + (if q e then 1 else 0) := by
  have := (removeFirst_perm hrm).countP_eq q
  rw [this, List.countP_cons]

theorem find?_eq_none_of_all {l : List ScheduleEntry} {q : ScheduleEntry → Bool}
    (hall : ∀ x ∈ l, q x = false) : l.find? q = none := by
  rw [List.find?_eq_none]
  intro x hx
  simp [hall x hx]

theorem find?_append_singleton {l : List ScheduleEntry} {e : ScheduleEntry}
    {q : ScheduleEntry → Bool} (hall : ∀ x ∈ l, q x = false) (hqe : q e = true) :
    (l ++ [e]).find? q = some e := by
  induction l with
  | nil => simp [List.find?, hqe]
  | cons x xs ih =>
    have hx := hall x (List.mem_cons_self x xs)
    simp only [List.cons_append, List.find?, hx]
    exact ih (fun y hy => hall y (List.mem_cons_of_mem x hy))

theorem removeFirst_append_singleton {l : List ScheduleEntry} {e : ScheduleEntry}
    (hne : ∀ x ∈ l, x ≠ e) : removeFirst (l ++ [e]) e = some l := by
  induction l with
  | nil => simp [removeFirst]
  | cons x xs ih =>
    have hx := hne x (List.mem_cons_self x xs)
    simp only [List.cons_append, removeFirst, if_neg hx, List.append_eq]
    rw [ih (fun y hy => hne y (List.mem_cons_of_mem x hy))]
    rfl

/-- An entry whose teacher is `p`, rebuilt with teacher `p`, is itself. -/
theorem entry_rebuild {e : ScheduleEntry} {p : String} (hp : e.teacher = p) :
    (⟨e.class_name, p, e.subject⟩ : ScheduleEntry) = e := by
  cases e
  simp only at hp
  simp [hp]

theorem updateCell_same (s : Schedule) (d : Day) (h : Nat) (l : List ScheduleEntry) :
    updateCell s d h l d h = l := by simp [updateCell]

theorem updateCell_other (s : Schedule) (d : Day) (h : Nat) (l : List ScheduleEntry)
    {d' : Day} {h' : Nat} (hne : ¬(d' = d ∧ h' = h)) : updateCell s d h l d' h' = s d' h' := by
  simp [updateCell, hne]

theorem swap_eq_of_neither {s : Schedule} {d1 : Day} {h1 : Nat} {d2 : Day} {h2 : Nat} {p : String}
    (hf1 : (s d1 h1).find? (fun e => e.teacher == p) = none)
    (hf2 : (s d2 h2).find? (fun e => e.teacher == p) = none) :
    swapClassForProfessor s d1 h1 d2 h2 p = some (false, s) := by
  unfold swapClassForProfessor
  rw [hf1, hf2]

theorem swap_eq_of_first_only {s : Schedule} {d1 : Day} {h1 : Nat} {d2 : Day} {h2 : Nat}
    {p : String} {e1 : ScheduleEntry} {l1 : List ScheduleEntry}
    (hf1 : (s d1 h1).find? (fun e => e.teacher == p) = some e1)
    (hf2 : (s d2 h2).find? (fun e => e.teacher == p) = none)
    (hl1 : removeFirst (s d1 h1) e1 = some l1) :
    swapClassForProfessor s d1 h1 d2 h2 p =
      some (true, swapMoveResult s d1 h1 d2 h2 e1 p l1) := by
  unfold swapClassForProfessor
  rw [hf1, hf2]
  show Option.map (fun l => (true, swapMoveResult s d1 h1 d2 h2 e1 p l))
    (removeFirst (s d1 h1) e1) = _
  rw [hl1]
  rfl

theorem swap_eq_of_second_only {s : Schedule} {d1 : Day} {h1 : Nat} {d2 : Day} {h2 : Nat}
    {p : String} {e2 : ScheduleEntry} {l2 : List ScheduleEntry}
    (hf1 : (s d1 h1).find? (fun e => e.teacher == p) = none)
    (hf2 : (s d2 h2).find? (fun e => e.teacher == p) = some e2)
    (hl2 : removeFirst (s d2 h2) e2 = some l2) :
    swapClassForProfessor s d1 h1 d2 h2 p =
      some (true, swapMoveResult s d2 h2 d1 h1 e2 p l2) := by
  unfold swapClassForProfessor
  rw [hf1, hf2]
  show Option.map (fun l => (true, swapMoveResult s d2 h2 d1 h1 e2 p l))
    (removeFirst (s d2 h2) e2) = _
  rw [hl2]
  rfl

theorem swap_eq_of_both {s : Schedule} {d1 : Day} {h1 : Nat} {d2 : Day} {h2 : Nat}
    {p : String} {e1 e2 : ScheduleEntry} {l1 l2 : List ScheduleEntry}
    (hf1 : (s d1 h1).find? (fun e => e.teacher == p) = some e1)
    (hf2 : (s d2 h2).find? (fun e => e.teacher == p) = some e2)
    (hl1 : removeFirst (s d1 h1) e1 = some l1)
    (hl2 : removeFirst ((updateCell s d1 h1 l1) d2 h2) e2 = some l2) :
    swapClassForProfessor s d1 h1 d2 h2 p =
      some (true, swapBothResult s d1 h1 d2 h2 p e1 e2 l1 l2) := by
  unfold swapClassForProfessor
  rw [hf1, hf2]
  show ((removeFirst (s d1 h1) e1).bind fun l1 =>
      (removeFirst ((updateCell s d1 h1 l1) d2 h2) e2).bind fun l2 =>
        some (true, swapBothResult s d1 h1 d2 h2 p e1 e2 l1 l2)) = _
  rw [hl1, Option.some_bind, hl2, Option.some_bind]

theorem find?_teacher_spec {l : List ScheduleEntry} {e : ScheduleEntry} {p : String}
    (hf : l.find? (fun x => x.teacher == p) = some e) : e ∈ l ∧ e.teacher = p :=
  ⟨List.mem_of_find?_eq_some hf, by simpa using List.find?_some hf⟩

theorem find?_teacher_none {l : List ScheduleEntry} {p : String}
    (hf : l.find? (fun x => x.teacher == p) = none) : ∀ x ∈ l, x.teacher ≠ p := by
  intro x hx
  have := List.find?_eq_none.mp hf x hx
  simpa using this

theorem append_removed_perm {l l' : List ScheduleEntry} {e : ScheduleEntry}
    (hrm : removeFirst l e = some l') : (l' ++ [e]).Perm l :=
  (List.perm_append_singleton e l').trans (removeFirst_perm hrm).symm

theorem countP_removed_zero {l l' : List ScheduleEntry} {e : ScheduleEntry} {p : String}
    (hc : cellTeacherCount l p ≤ 1) (hrm : removeFirst l e = some l')
    (hep : e.teacher = p) : cellTeacherCount l' p = 0 := by
  have := removeFirst_countP hrm (fun x => x.teacher == p)
  unfold cellTeacherCount at hc ⊢
  rw [this] at hc
  simp only [hep, beq_self_eq_true, if_true] at hc
  omega

theorem teacher_ne_of_countP_zero {l : List ScheduleEntry} {p : String}
    (hz : cellTeacherCount l p = 0) : ∀ x ∈ l, x.teacher ≠ p := by
  intro x hx
  have := List.countP_eq_zero.mp hz x hx
  simpa using this

/-- C10 (amended): `swap_class_for_professor` returns `False` and leaves the
schedule unchanged exactly when the professor has a placement in neither
slot; when the two slots are distinct cells it completes and returns `True`
exactly when the professor has a placement in at least one of them.  (When
the two slots are the same cell and the professor is placed there, the
double removal faults — see the counterexample.) -/
theorem C10_swap_return_value (s : Schedule) (d1 : Day) (h1 : Nat) (d2 : Day) (h2 : Nat)
    (p : String) (hne : (d1, h1) ≠ (d2, h2)) :
    ∃ b s', swapClassForProfessor s d1 h1 d2 h2 p = some (b, s') ∧
      (b = true ↔ (∃ e ∈ s d1 h1, e.teacher = p) ∨ (∃ e ∈ s d2 h2, e.teacher = p)) ∧
      (b = false → s' = s) := by
  have hcell2 : ¬(d2 = d1 ∧ h2 = h1) := by
    rintro ⟨rfl, rfl⟩; exact hne rfl
  cases hf1 : (s d1 h1).find? (fun e => e.teacher == p) with
  | none =>
    cases hf2 : (s d2 h2).find? (fun e => e.teacher == p) with
    | none =>
      refine ⟨false, s, swap_eq_of_neither hf1 hf2, ?_, fun _ => rfl⟩
      simp only [Bool.false_eq_true, false_iff]
      rintro (⟨e, he, hep⟩ | ⟨e, he, hep⟩)
      · exact find?_teacher_none hf1 e he hep
      · exact find?_teacher_none hf2 e he hep
    | some e2 =>
      obtain ⟨he2, hep2⟩ := find?_teacher_spec hf2
      obtain ⟨l2, hl2⟩ := removeFirst_isSome_of_mem he2
      refine ⟨true, _, swap_eq_of_second_only hf1 hf2 hl2, ?_, by simp⟩
      simp only [true_iff]
      exact Or.inr ⟨e2, he2, hep2⟩
  | some e1 =>
    obtain ⟨he1, hep1⟩ := find?_teacher_spec hf1
    obtain ⟨l1, hl1⟩ := removeFirst_isSome_of_mem he1
    cases hf2 : (s d2 h2).find? (fun e => e.teacher == p) with
    | none =>
      refine ⟨true, _, swap_eq_of_first_only hf1 hf2 hl1, ?_, by simp⟩
      simp only [true_iff]
      exact Or.inl ⟨e1, he1, hep1⟩
    | some e2 =>
      obtain ⟨he2, hep2⟩ := find?_teacher_spec hf2
      have hcellkeep : updateCell s d1 h1 l1 d2 h2 = s d2 h2 := updateCell_other _ _ _ _ hcell2
      have he2' : e2 ∈ (updateCell s d1 h1 l1) d2 h2 := by rw [hcellkeep]; exact he2
      obtain ⟨l2, hl2⟩ := removeFirst_isSome_of_mem he2'
      refine ⟨true, _, swap_eq_of_both hf1 hf2 hl1 hl2, ?_, by simp⟩
      simp only [true_iff]
      exact Or.inl ⟨e1, he1, hep1⟩

/-- Witness for C10 at a concrete schedule and distinct slots. -/
theorem C10_witness :
    ∃ b s', swapClassForProfessor singlePlacement .LUN 8 .MAR 9 "P" = some (b, s') ∧
      (b = true ↔ (∃ e ∈ singlePlacement .LUN 8, e.teacher = "P") ∨
        (∃ e ∈ singlePlacement .MAR 9, e.teacher = "P")) ∧
      (b = false → s' = singlePlacement) :=
  C10_swap_return_value singlePlacement .LUN 8 .MAR 9 "P" (by decide)

/-- Counterexample to C10 as stated: with both slots equal to (LUN, 8) and the
professor placed there, the call neither returns `True` nor `False`; the
second `list.remove` raises `ValueError`. -/
theorem C10_counterexample_same_slot_faults :
    (∃ e ∈ singlePlacement .LUN 8, e.teacher = "P") ∧
      swapClassForProfessor singlePlacement .LUN 8 .LUN 8 "P" = none :=
  ⟨⟨⟨"C1", "P", "MAT"⟩, by simp [singlePlacement], rfl⟩, rfl⟩

theorem swapMoveResult_at_to {s : Schedule} {dF : Day} {hF : Nat} {dT : Day} {hT : Nat}
    {e : ScheduleEntry} {p : String} {l : List ScheduleEntry}
    (hne : ¬(dT = dF ∧ hT = hF)) :
    swapMoveResult s dF hF dT hT e p l dT hT = s dT hT ++ [⟨e.class_name, p, e.subject⟩] := by
  simp [swapMoveResult, updateCell, hne]

theorem swapMoveResult_at_from {s : Schedule} {dF : Day} {hF : Nat} {dT : Day} {hT : Nat}
    {e : ScheduleEntry} {p : String} {l : List ScheduleEntry}
    (hne : ¬(dF = dT ∧ hF = hT)) :
    swapMoveResult s dF hF dT hT e p l dF hF = l := by
  simp [swapMoveResult, updateCell, hne]

theorem swapMoveResult_other {s : Schedule} {dF : Day} {hF : Nat} {dT : Day} {hT : Nat}
    {e : ScheduleEntry} {p : String} {l : List ScheduleEntry} {d : Day} {h : Nat}
    (hF' : ¬(d = dF ∧ h = hF)) (hT' : ¬(d = dT ∧ h = hT)) :
    swapMoveResult s dF hF dT hT e p l d h = s d h := by
  simp [swapMoveResult, updateCell, hF', hT']

theorem swapBothResult_at_1 {s : Schedule} {d1 : Day} {h1 : Nat} {d2 : Day} {h2 : Nat}
    {p : String} {e1 e2 : ScheduleEntry} {l1 l2 : List ScheduleEntry}
    (hne : ¬(d1 = d2 ∧ h1 = h2)) :
    swapBothResult s d1 h1 d2 h2 p e1 e2 l1 l2 d1 h1 =
      l1 ++ [⟨e2.class_name, p, e2.subject⟩] := by
  simp [swapBothResult, updateCell, hne]

theorem swapBothResult_at_2 {s : Schedule} {d1 : Day} {h1 : Nat} {d2 : Day} {h2 : Nat}
    {p : String} {e1 e2 : ScheduleEntry} {l1 l2 : List ScheduleEntry}
    (hne : ¬(d2 = d1 ∧ h2 = h1)) :
    swapBothResult s d1 h1 d2 h2 p e1 e2 l1 l2 d2 h2 =
      l2 ++ [⟨e1.class_name, p, e1.subject⟩] := by
  simp [swapBothResult, updateCell, hne]

theorem swapBothResult_other {s : Schedule} {d1 : Day} {h1 : Nat} {d2 : Day} {h2 : Nat}
    {p : String} {e1 e2 : ScheduleEntry} {l1 l2 : List ScheduleEntry} {d : Day} {h : Nat}
    (h1' : ¬(d = d1 ∧ h = h1)) (h2' : ¬(d = d2 ∧ h = h2)) :
    swapBothResult s d1 h1 d2 h2 p e1 e2 l1 l2 d h = s d h := by
  simp [swapBothResult, updateCell, h1', h2']

theorem beq_teacher_false_of_ne {x : ScheduleEntry} {p : String} (h : x.teacher ≠ p) :
    (x.teacher == p) = false := by simp [h]

theorem entry_ne_of_teacher_ne {x e : ScheduleEntry} {p : String}
    (hx : x.teacher ≠ p) (he : e.teacher = p) : x ≠ e :=
  fun h => hx (h ▸ he)

/-- C6 (amended): when the two slots are distinct cells and the professor has
at most one placement in each, performing `swap_class_for_professor` twice
with the same arguments restores every cell of the schedule
placement-for-placement (each cell is a permutation of the original; the
order of entries within a cell's list may differ). -/
theorem C6_swap_twice_restores (s : Schedule) (d1 : Day) (h1 : Nat) (d2 : Day) (h2 : Nat)
    (p : String) (hne : (d1, h1) ≠ (d2, h2))
    (hc1 : cellTeacherCount (s d1 h1) p ≤ 1)
    (hc2 : cellTeacherCount (s d2 h2) p ≤ 1) :
    ∃ b1 s1 b2 s2,
      swapClassForProfessor s d1 h1 d2 h2 p = some (b1, s1) ∧
      swapClassForProfessor s1 d1 h1 d2 h2 p = some (b2, s2) ∧
      ∀ d h, (s2 d h).Perm (s d h) := by
  have hne1 : ¬(d1 = d2 ∧ h1 = h2) := by rintro ⟨rfl, rfl⟩; exact hne rfl
  have hne2 : ¬(d2 = d1 ∧ h2 = h1) := by rintro ⟨rfl, rfl⟩; exact hne rfl
  cases hf1 : (s d1 h1).find? (fun e => e.teacher == p) with
  | none =>
    cases hf2 : (s d2 h2).find? (fun e => e.teacher == p) with
    | none =>
      exact ⟨false, s, false, s, swap_eq_of_neither hf1 hf2,
        swap_eq_of_neither hf1 hf2, fun d h => List.Perm.refl _⟩
    | some e2 =>
      obtain ⟨he2, hep2⟩ := find?_teacher_spec hf2
      obtain ⟨l2, hl2⟩ := removeFirst_isSome_of_mem he2
      have hz2 : cellTeacherCount l2 p = 0 := countP_removed_zero hc2 hl2 hep2
      have hrb2 : (⟨e2.class_name, p, e2.subject⟩ : ScheduleEntry) = e2 := entry_rebuild hep2
      set t1 := swapMoveResult s d2 h2 d1 h1 e2 p l2 with ht1
      have hcell1 : t1 d1 h1 = s d1 h1 ++ [e2] := by
        rw [ht1, swapMoveResult_at_to hne1, hrb2]
      have hcell2 : t1 d2 h2 = l2 := by rw [ht1, swapMoveResult_at_from hne2]
      have hf1' : (t1 d1 h1).find? (fun e => e.teacher == p) = some e2 := by
        rw [hcell1]
        exact find?_append_singleton
          (fun x hx => beq_teacher_false_of_ne (find?_teacher_none hf1 x hx))
          (by simp [hep2])
      have hf2' : (t1 d2 h2).find? (fun e => e.teacher == p) = none := by
        rw [hcell2]
        exact find?_eq_none_of_all
          (fun x hx => beq_teacher_false_of_ne (teacher_ne_of_countP_zero hz2 x hx))
      have hrm1' : removeFirst (t1 d1 h1) e2 = some (s d1 h1) := by
        rw [hcell1]
        exact removeFirst_append_singleton
          (fun x hx => entry_ne_of_teacher_ne (find?_teacher_none hf1 x hx) hep2)
      refine ⟨true, t1, true, _, swap_eq_of_second_only hf1 hf2 hl2,
        swap_eq_of_first_only hf1' hf2' hrm1', ?_⟩
      intro d h
      by_cases hd1 : d = d1 ∧ h = h1
      · obtain ⟨rfl, rfl⟩ := hd1
        exact List.Perm.of_eq (swapMoveResult_at_from hne1)
      · by_cases hd2 : d = d2 ∧ h = h2
        · obtain ⟨rfl, rfl⟩ := hd2
          rw [swapMoveResult_at_to hne2, hcell2, hrb2]
          exact append_removed_perm hl2
        · exact List.Perm.of_eq
            (by rw [swapMoveResult_other hd1 hd2, ht1, swapMoveResult_other hd2 hd1])
  | some e1 =>
    obtain ⟨he1, hep1⟩ := find?_teacher_spec hf1
    obtain ⟨l1, hl1⟩ := removeFirst_isSome_of_mem he1
    have hz1 : cellTeacherCount l1 p = 0 := countP_removed_zero hc1 hl1 hep1
    have hrb1 : (⟨e1.class_name, p, e1.subject⟩ : ScheduleEntry) = e1 := entry_rebuild hep1
    cases hf2 : (s d2 h2).find? (fun e => e.teacher == p) with
    | none =>
      set t1 := swapMoveResult s d1 h1 d2 h2 e1 p l1 with ht1
      have hcell2 : t1 d2 h2 = s d2 h2 ++ [e1] := by
        rw [ht1, swapMoveResult_at_to hne2, hrb1]
      have hcell1 : t1 d1 h1 = l1 := by rw [ht1, swapMoveResult_at_from hne1]
      have hf1' : (t1 d1 h1).find? (fun e => e.teacher == p) = none := by
        rw [hcell1]
        exact find?_eq_none_of_all
          (fun x hx => beq_teacher_false_of_ne (teacher_ne_of_countP_zero hz1 x hx))
      have hf2' : (t1 d2 h2).find? (fun e => e.teacher == p) = some e1 := by
        rw [hcell2]
        exact find?_append_singleton
          (fun x hx => beq_teacher_false_of_ne (find?_teacher_none hf2 x hx))
          (by simp [hep1])
      have hrm2' : removeFirst (t1 d2 h2) e1 = some (s d2 h2) := by
        rw [hcell2]
        exact removeFirst_append_singleton
          (fun x hx => entry_ne_of_teacher_ne (find?_teacher_none hf2 x hx) hep1)
      refine ⟨true, t1, true, _, swap_eq_of_first_only hf1 hf2 hl1,
        swap_eq_of_second_only hf1' hf2' hrm2', ?_⟩
      intro d h
      by_cases hd2 : d = d2 ∧ h = h2
      · obtain ⟨rfl, rfl⟩ := hd2
        exact List.Perm.of_eq (swapMoveResult_at_from hne2)
      · by_cases hd1 : d = d1 ∧ h = h1
        · obtain ⟨rfl, rfl⟩ := hd1
          rw [swapMoveResult_at_to hne1, hcell1, hrb1]
          exact append_removed_perm hl1
        · exact List.Perm.of_eq
            (by rw [swapMoveResult_other hd2 hd1, ht1, swapMoveResult_other hd1 hd2])
    | some e2 =>
      obtain ⟨he2, hep2⟩ := find?_teacher_spec hf2
      have hcellkeep : updateCell s d1 h1 l1 d2 h2 = s d2 h2 := updateCell_other _ _ _ _ hne2
      have he2' : e2 ∈ (updateCell s d1 h1 l1) d2 h2 := by rw [hcellkeep]; exact he2
      obtain ⟨l2, hl2⟩ := removeFirst_isSome_of_mem he2'
      have hl2' : removeFirst (s d2 h2) e2 = some l2 := by rw [hcellkeep] at hl2; exact hl2
      have hz2 : cellTeacherCount l2 p = 0 := countP_removed_zero hc2 hl2' hep2
      have hrb2 : (⟨e2.class_name, p, e2.subject⟩ : ScheduleEntry) = e2 := entry_rebuild hep2
      set t1 := swapBothResult s d1 h1 d2 h2 p e1 e2 l1 l2 with ht1
      have hcell1 : t1 d1 h1 = l1 ++ [e2] := by rw [ht1, swapBothResult_at_1 hne1, hrb2]
      have hcell2 : t1 d2 h2 = l2 ++ [e1] := by rw [ht1, swapBothResult_at_2 hne2, hrb1]
      have hf1' : (t1 d1 h1).find? (fun e => e.teacher == p) = some e2 := by
        rw [hcell1]
        exact find?_append_singleton
          (fun x hx => beq_teacher_false_of_ne (teacher_ne_of_countP_zero hz1 x hx))
          (by simp [hep2])
      have hf2' : (t1 d2 h2).find? (fun e => e.teacher == p) = some e1 := by
        rw [hcell2]
        exact find?_append_singleton
          (fun x hx => beq_teacher_false_of_ne (teacher_ne_of_countP_zero hz2 x hx))
          (by simp [hep1])
      have hrm1' : removeFirst (t1 d1 h1) e2 = some l1 := by
        rw [hcell1]
        exact removeFirst_append_singleton
          (fun x hx => entry_ne_of_teacher_ne (teacher_ne_of_countP_zero hz1 x hx) hep2)
      have hrm2' : removeFirst ((updateCell t1 d1 h1 l1) d2 h2) e1 = some l2 := by
        rw [updateCell_other _ _ _ _ hne2, hcell2]
        exact removeFirst_append_singleton
          (fun x hx => entry_ne_of_teacher_ne (teacher_ne_of_countP_zero hz2 x hx) hep1)
      refine ⟨true, t1, true, _, swap_eq_of_both hf1 hf2 hl1 hl2,
        swap_eq_of_both hf1' hf2' hrm1' hrm2', ?_⟩
      intro d h
      by_cases hd1 : d = d1 ∧ h = h1
      · obtain ⟨rfl, rfl⟩ := hd1
        rw [swapBothResult_at_1 hne1, hrb1]
        exact append_removed_perm hl1
      · by_cases hd2 : d = d2 ∧ h = h2
        · obtain ⟨rfl, rfl⟩ := hd2
          rw [swapBothResult_at_2 hne2, hrb2]
          exact append_removed_perm hl2'
        · exact List.Perm.of_eq
            (by rw [swapBothResult_other hd1 hd2, ht1, swapBothResult_other hd1 hd2])

/-- Witness for C6 at a concrete schedule: the double swap restores every cell. -/
theorem C6_witness :
    ∃ b1 s1 b2 s2,
      swapClassForProfessor swapPairState .LUN 8 .MAR 8 "P" = some (b1, s1) ∧
      swapClassForProfessor s1 .LUN 8 .MAR 8 "P" = some (b2, s2) ∧
      ∀ d h, (s2 d h).Perm (swapPairState d h) :=
  C6_swap_twice_restores swapPairState .LUN 8 .MAR 8 "P" (by decide) (by decide) (by decide)

/-- Counterexample to C6 as stated (quantified over every schedule state): on
a state in which the professor holds two placements in the first slot,
performing the same swap twice does not restore the schedule; cell (LUN, 8)
ends with one placement instead of its original two. -/
theorem C6_counterexample_double_swap_not_involutive :
    ∃ s1 s2,
      swapClassForProfessor doubledPlacement .LUN 8 .MAR 8 "P" = some (true, s1) ∧
      swapClassForProfessor s1 .LUN 8 .MAR 8 "P" = some (true, s2) ∧
      ¬ (s2 .LUN 8).Perm (doubledPlacement .LUN 8) := by
  refine ⟨_, _, rfl, rfl, fun hp => absurd hp.length_eq (by decide)⟩

theorem days_nodup : days.Nodup := by decide

theorem getAvailableSlots_mem {s : Schedule} {t c : String} {d : Day} {h : Nat}
    (hmem : (d, h) ∈ getAvailableSlots s t c) : h ∈ hours := by
  unfold getAvailableSlots at hmem
  obtain ⟨d', _, hin⟩ := List.mem_flatMap.mp hmem
  obtain ⟨h', hh', heq⟩ := List.mem_filterMap.mp hin
  by_cases hav : isSlotAvailable s t c d' h' = true
  · simp only [hav, if_true, Option.some.injEq, Prod.mk.injEq] at heq
    exact heq.2 ▸ hh'
  · simp [hav] at heq

theorem slotScore_nonneg (s : Schedule) (t : String) (d : Day) (h : Nat) :
    0 ≤ slotScore s t d h := by
  unfold slotScore
  have h1 : (0 : Int) ≤ if h ≤ 11 then 10 else 0 := by split <;> omega
  have h2 : (0 : Int) ≤ (adjTeacherCount s t d h : Int) * 5 := by positivity
  omega

theorem pickBest_fold_some {s : Schedule} {t : String} (slots : List (Day × Nat))
    (acc : Option (Day × Nat) × Int) {x : Day × Nat} (hx : acc.1 = some x) :
    ∃ y, (slots.foldl
        (fun acc slot =>
          if slotScore s t slot.1 slot.2 > acc.2 then (some slot, slotScore s t slot.1 slot.2)
          else acc) acc).1 = some y ∧ (y ∈ slots ∨ y = x) := by
  induction slots generalizing acc x with
  | nil => exact ⟨x, hx, Or.inr rfl⟩
  | cons sl rest ih =>
    simp only [List.foldl_cons]
    by_cases hgt : slotScore s t sl.1 sl.2 > acc.2
    · rw [if_pos hgt]
      obtain ⟨y, hy, hmem⟩ := ih ((some sl, slotScore s t sl.1 sl.2)) rfl
      refine ⟨y, hy, ?_⟩
      rcases hmem with hm | hm
      · exact Or.inl (List.mem_cons_of_mem _ hm)
      · exact Or.inl (hm ▸ List.mem_cons_self _ _)
    · rw [if_neg hgt]
      obtain ⟨y, hy, hmem⟩ := ih acc hx
      refine ⟨y, hy, ?_⟩
      rcases hmem with hm | hm
      · exact Or.inl (List.mem_cons_of_mem _ hm)
      · exact Or.inr hm

theorem pickBestSlot_spec {s : Schedule} {t : String} {slots : List (Day × Nat)}
    (hne : slots ≠ []) : ∃ sl ∈ slots, pickBestSlot s t slots = some sl := by
  cases slots with
  | nil => exact absurd rfl hne
  | cons sl rest =>
    unfold pickBestSlot
    simp only [List.foldl_cons]
    have hgt : slotScore s t sl.1 sl.2 > (-1 : Int) := lt_of_lt_of_le (by omega) (slotScore_nonneg s t sl.1 sl.2)
    rw [if_pos hgt]
    obtain ⟨y, hy, hmem⟩ := pickBest_fold_some rest ((some sl, slotScore s t sl.1 sl.2)) rfl
    refine ⟨y, ?_, hy⟩
    rcases hmem with hm | hm
    · exact List.mem_cons_of_mem _ hm
    · exact hm ▸ List.mem_cons_self _ _

theorem pickBestSlot_mem {s : Schedule} {t : String} {slots : List (Day × Nat)}
    {sl : Day × Nat} (hp : pickBestSlot s t slots = some sl) : sl ∈ slots := by
  cases hslots : slots with
  | nil => rw [hslots] at hp; simp [pickBestSlot] at hp
  | cons a rest =>
    subst hslots
    unfold pickBestSlot at hp
    simp only [List.foldl_cons] at hp
    have hgt : slotScore s t a.1 a.2 > (-1 : Int) :=
      lt_of_lt_of_le (by omega) (slotScore_nonneg s t a.1 a.2)
    rw [if_pos hgt] at hp
    obtain ⟨y, hy, hmem⟩ := pickBest_fold_some rest ((some a, slotScore s t a.1 a.2)) rfl
    rw [hy] at hp
    cases hp
    rcases hmem with hm | hm
    · exact List.mem_cons_of_mem _ hm
    · exact hm ▸ List.mem_cons_self _ _

theorem totalPlacements_assign (s : Schedule) (t c subj : String) (d : Day) (h : Nat)
    (hh : h ∈ hours) :
    totalPlacements (assignSlot s t c subj d h) = totalPlacements s + 1 := by
  unfold totalPlacements
  apply sum_map_update_at days_nodup (mem_days d)
  · intro x _ hxd
    have hcell : ∀ hr, assignSlot s t c subj d h x hr = s x hr := by
      intro hr
      rw [cell_assign]
      simp [hxd]
    simp [hcell]
  · apply sum_map_update_at hours_nodup hh
    · intro y _ hyh
      rw [cell_assign]
      simp [hyh]
    · rw [cell_assign]
      simp

theorem allocateHours_le (s : Schedule) (t c subj : String) (n : Nat) :
    (allocateHours s t c subj n).2 ≤ n := by
  induction n generalizing s with
  | zero => simp [allocateHours]
  | succ n ih =>
    unfold allocateHours
    cases hp : pickBestSlot s t (getAvailableSlots s t c) with
    | none => simp
    | some sl =>
      obtain ⟨d, h⟩ := sl
      simpa using ih (assignSlot s t c subj d h)

theorem allocateHours_placements (s : Schedule) (t c subj : String) (n : Nat) :
    totalPlacements (allocateHours s t c subj n).1 =
      totalPlacements s + (allocateHours s t c subj n).2 := by
  induction n generalizing s with
  | zero => simp [allocateHours]
  | succ n ih =>
    unfold allocateHours
    cases hp : pickBestSlot s t (getAvailableSlots s t c) with
    | none => simp
    | some sl =>
      obtain ⟨d, h⟩ := sl
      have hh : h ∈ hours := getAvailableSlots_mem (pickBestSlot_mem hp)
      simp only
      rw [ih (assignSlot s t c subj d h), totalPlacements_assign s t c subj d h hh]
      omega

theorem processObligations_spec (obs : List Obligation) (s : Schedule) :
    totalPlacements (processObligations obs s).1 =
        totalPlacements s + (processObligations obs s).2.1 ∧
      (processObligations obs s).2.1 +
          (((processObligations obs s).2.2).map (·.remaining)).sum =
        (obs.map (·.hours_needed)).sum := by
  induction obs generalizing s with
  | nil => simp [processObligations]
  | cons ob rest ih =>
    unfold processObligations
    simp only
    obtain ⟨ih1, ih2⟩ := ih (allocateHours s ob.teacher ob.class_name ob.subject ob.hours_needed).1
    have hle := allocateHours_le s ob.teacher ob.class_name ob.subject ob.hours_needed
    have hplac := allocateHours_placements s ob.teacher ob.class_name ob.subject ob.hours_needed
    constructor
    · rw [ih1, hplac]
      omega
    · by_cases hlt :
        (allocateHours s ob.teacher ob.class_name ob.subject ob.hours_needed).2 < ob.hours_needed
      · rw [if_pos hlt]
        simp only [List.map_cons, List.sum_cons]
        omega
      · rw [if_neg hlt]
        simp only [List.map_cons, List.sum_cons]
        omega

/-- C5: after an allocator run over any obligation set, the total number of
placements stored in the schedule equals the reported allocated hours, and
allocated hours plus the sum of `remaining` over the failed assignments
equals the sum of `hours_needed` over all obligations. -/
theorem C5_allocation_conservation (obs : List Obligation) :
    totalPlacements (createSchedule obs).1 = (createSchedule obs).2.1 ∧
      (createSchedule obs).2.1 + (((createSchedule obs).2.2).map (·.remaining)).sum =
        (obs.map (·.hours_needed)).sum := by
  have hperm : (allocationOrder emptySchedule obs).Perm obs :=
    List.perm_insertionSort (priorityGE emptySchedule) obs
  obtain ⟨h1, h2⟩ := processObligations_spec (allocationOrder emptySchedule obs) emptySchedule
  have hempty : totalPlacements emptySchedule = 0 := by decide
  have hsum : ((allocationOrder emptySchedule obs).map (·.hours_needed)).sum =
      (obs.map (·.hours_needed)).sum :=
    (hperm.map (·.hours_needed)).sum_eq
  constructor
  · rw [show (createSchedule obs).1 = (processObligations (allocationOrder emptySchedule obs) emptySchedule).1 from rfl, h1, hempty,
      show (createSchedule obs).2.1 = (processObligations (allocationOrder emptySchedule obs) emptySchedule).2.1 from rfl]
    omega
  · rw [show (createSchedule obs).2 = (processObligations (allocationOrder emptySchedule obs) emptySchedule).2 from rfl]
    rw [← hsum]
    exact h2

/-- C7: `create_schedule` computes, for each obligation against the initially
empty grid, the priority `hours_needed / available_slots` (zero available
slots meaning infinite priority), and processes the obligations in
non-increasing order of this priority: the processed list is a permutation
of the input, pairwise sorted by descending priority, and the allocator runs
over exactly that list. -/
theorem C7_priority_order (obs : List Obligation) :
    (allocationOrder emptySchedule obs).Perm obs ∧
      (allocationOrder emptySchedule obs).Pairwise
        (fun o1 o2 => priorityOf emptySchedule o2 ≤ priorityOf emptySchedule o1) ∧
      createSchedule obs = processObligations (allocationOrder emptySchedule obs) emptySchedule :=
  ⟨List.perm_insertionSort (priorityGE emptySchedule) obs,
    List.sorted_insertionSort (priorityGE emptySchedule) obs, rfl⟩

theorem columnValues_eq_map_snd (df : DFrame) (col : String) :
    columnValues df col = (columnPairs df col).map (·.2) := by
  unfold columnValues columnPairs
  induction df.idx with
  | nil => rfl
  | cons t rest ih =>
    simp only [List.filterMap_cons]
    cases df.cell t col with
    | none => exact ih
    | some v => simp only [Option.map_some', List.map_cons]; rw [ih]

theorem mem_columnPairs {df : DFrame} {col t v : String} :
    (t, v) ∈ columnPairs df col ↔ t ∈ df.idx ∧ df.cell t col = some v := by
  unfold columnPairs
  rw [List.mem_filterMap]
  constructor
  · rintro ⟨a, ha, hfa⟩
    cases hc : df.cell a col with
    | none => rw [hc] at hfa; simp at hfa
    | some w =>
      rw [hc] at hfa
      simp only [Option.map_some', Option.some.injEq, Prod.mk.injEq] at hfa
      obtain ⟨rfl, rfl⟩ := hfa
      exact ⟨ha, hc⟩
  · rintro ⟨ht, hc⟩
    exact ⟨t, ht, by rw [hc]; rfl⟩

theorem countP_pairs_eq_count_values (df : DFrame) (col v : String) :
    (columnPairs df col).countP (fun p2 => p2.2 == v) = (columnValues df col).count v := by
  rw [columnValues_eq_map_snd, List.count_eq_countP, List.countP_map]
  rfl

/-- Membership in the computed conflict set of a column: exactly the index
labels holding a non-null value that occurs at least twice in the column. -/
theorem mem_duplicatedIndices (df : DFrame) (col t : String) :
    t ∈ duplicatedIndicesInColumn df col ↔
      t ∈ df.idx ∧ ∃ v, df.cell t col = some v ∧ 2 ≤ (columnValues df col).count v := by
  unfold duplicatedIndicesInColumn
  simp only [List.mem_map, List.mem_filter]
  constructor
  · rintro ⟨⟨t', v⟩, ⟨hmem, hcnt⟩, rfl⟩
    obtain ⟨hidx, hcell⟩ := mem_columnPairs.mp hmem
    refine ⟨hidx, v, hcell, ?_⟩
    rw [← countP_pairs_eq_count_values]
    simpa using hcnt
  · rintro ⟨hidx, v, hcell, hcnt⟩
    refine ⟨(t, v), ⟨mem_columnPairs.mpr ⟨hidx, hcell⟩, ?_⟩, rfl⟩
    simp only [decide_eq_true_eq]
    show 2 ≤ (columnPairs df col).countP (fun p2 => p2.2 == v)
    rw [countP_pairs_eq_count_values]
    exact hcnt

/-- C9 (amended): after the unconditional swap, the conflict set the resolver
computes for each of the two affected columns is exactly the set of index
labels (teachers) whose class value in that column of the swapped grid
occurs more than once among the column's non-null values. -/
theorem C9_conflict_sets_are_duplicated_class_values (df : DFrame) (c1 c2 : Classe)
    (t : String) :
    (t ∈ (permute df c1 c2).1.1.1 ↔
      t ∈ (dfSwap df c1 c2).idx ∧ ∃ v, (dfSwap df c1 c2).cell t c1.day_hour = some v ∧
        2 ≤ (columnValues (dfSwap df c1 c2) c1.day_hour).count v) ∧
    (t ∈ (permute df c1 c2).1.2.1 ↔
      t ∈ (dfSwap df c1 c2).idx ∧ ∃ v, (dfSwap df c1 c2).cell t c2.day_hour = some v ∧
        2 ≤ (columnValues (dfSwap df c1 c2) c2.day_hour).count v) :=
  ⟨mem_duplicatedIndices (dfSwap df c1 c2) c1.day_hour t,
    mem_duplicatedIndices (dfSwap df c1 c2) c2.day_hour t⟩

/-- Counterexample to C9 as stated: after swapping T1's LUN8 and LUN9 cells,
the resolver's conflict set for column LUN8 is the two teachers holding the
duplicated class value B, while the set of teachers that appear more than
once in that column of the grid (the column holds class values, and no
teacher label occurs among them twice) is empty. -/
theorem C9_counterexample_conflicts_are_not_teacher_occurrences :
    (permute conflictGridNine ⟨"T1", "LUN8"⟩ ⟨"T1", "LUN9"⟩).1.1.1 = ["T1", "T2"] ∧
      teachersAppearingMoreThanOnce
        (permute conflictGridNine ⟨"T1", "LUN8"⟩ ⟨"T1", "LUN9"⟩).2 "LUN8" = [] := by
  constructor <;> rfl

/-- C8: on any input whose seed swap leaves a conflict, the resolver's loop
body runs and the run fails with a `TypeError` (modelled as `Except.error`)
instead of iterating up to `max_iterations` and returning `(None, None)` or
a permuted schedule: `find_solution` passes four arguments to the
three-parameter `logic.find_next_available_slot`. -/
theorem C8_find_solution_crashes_when_loop_runs :
    findSolution conflictGridEight "T1" "LUN8" "LUN9" 200 = Except.error () := rfl

theorem sum_map_swap_at {α : Type} {l : List α} {a : α}
    (hnd : l.Nodup) (ha : a ∈ l) (f g : α → Nat)
    (hne : ∀ x ∈ l, x ≠ a → g x = f x) :
    (l.map g).sum + f a = (l.map f).sum + g a := by
  induction l with
  | nil => cases ha
  | cons x xs ih =>
    rcases List.mem_cons.mp ha with rfl | hmem
    · have hxs : ∀ y ∈ xs, g y = f y := by
        intro y hy
        exact hne y (List.mem_cons_of_mem _ hy)
          (fun h => (List.nodup_cons.mp hnd).1 (h ▸ hy))
      simp only [List.map_cons, List.sum_cons, List.map_congr_left hxs]
      omega
    · have hgx : g x = f x :=
        hne x (List.mem_cons_self x xs) (fun hxa => (List.nodup_cons.mp hnd).1 (hxa ▸ hmem))
      have := ih (List.nodup_cons.mp hnd).2 hmem
        (fun y hy hya => hne y (List.mem_cons_of_mem _ hy) hya)
      simp only [List.map_cons, List.sum_cons, hgx]
      omega

theorem dayPredSum_update_same (s : Schedule) (d0 : Day) (h0 : Nat)
    (l : List ScheduleEntry) (hh : h0 ∈ hours) (pr : ScheduleEntry → Bool) :
    dayPredSum (updateCell s d0 h0 l) d0 pr + (s d0 h0).countP pr =
      dayPredSum s d0 pr + l.countP pr := by
  have h1 := sum_map_swap_at hours_nodup hh
    (fun h => (s d0 h).countP pr) (fun h => ((updateCell s d0 h0 l) d0 h).countP pr)
    (fun x _ hx => by simp [updateCell, hx])
  simp only [] at h1
  rw [updateCell_same] at h1
  unfold dayPredSum
  exact h1

theorem dayPredSum_update_other (s : Schedule) (d0 : Day) (h0 : Nat)
    (l : List ScheduleEntry) {d : Day} (hd : d ≠ d0) (pr : ScheduleEntry → Bool) :
    dayPredSum (updateCell s d0 h0 l) d pr = dayPredSum s d pr := by
  unfold dayPredSum
  have : ∀ h, updateCell s d0 h0 l d h = s d h := fun h => by simp [updateCell, hd]
  simp [this]

theorem dayPredSum_congr {s s' : Schedule} {d : Day} (pr : ScheduleEntry → Bool)
    (hcells : ∀ h ∈ hours, s' d h = s d h) : dayPredSum s' d pr = dayPredSum s d pr := by
  unfold dayPredSum
  congr 1
  apply List.map_congr_left
  intro h hh
  rw [hcells h hh]

theorem countP_le_of_imp {l : List ScheduleEntry} {p q : ScheduleEntry → Bool}
    (himp : ∀ x ∈ l, p x = true → q x = true) : l.countP p ≤ l.countP q := by
  induction l with
  | nil => simp
  | cons x xs ih =>
    have hxs := ih (fun y hy => himp y (List.mem_cons_of_mem _ hy))
    simp only [List.countP_cons]
    by_cases hp : p x = true
    · rw [himp x (List.mem_cons_self _ _) hp, hp]
      omega
    · simp only [Bool.not_eq_true] at hp
      rw [hp]
      simp only [Bool.false_eq_true, if_false, Nat.add_zero]
      split <;> omega

theorem countP_field_eq_one {l : List ScheduleEntry} (f : ScheduleEntry → String) {v : String}
    (hnd : (l.map f).Nodup) {e : ScheduleEntry} (he : e ∈ l) (hfe : f e = v) :
    l.countP (fun x => f x == v) = 1 := by
  induction l with
  | nil => cases he
  | cons x xs ih =>
    rw [List.map_cons, List.nodup_cons] at hnd
    rcases List.mem_cons.mp he with rfl | hmem
    · have hzero : xs.countP (fun x => f x == v) = 0 := by
        apply List.countP_eq_zero.mpr
        intro y hy
        simp only [beq_iff_eq]
        intro hyv
        exact hnd.1 (hfe ▸ hyv ▸ List.mem_map_of_mem f hy)
      simp [List.countP_cons, hfe, hzero]
    · have hfx : f x ≠ v := by
        intro hxv
        exact hnd.1 (hxv ▸ hfe ▸ List.mem_map_of_mem f hmem)
      rw [List.countP_cons]
      simp only [beq_iff_eq, hfx, decide_eq_true_eq]
      rw [ih hnd.2 hmem]
      simp [hfx]

theorem find?_field_unique {l : List ScheduleEntry} (f : ScheduleEntry → String) {v : String}
    (hnd : (l.map f).Nodup) {e : ScheduleEntry} (he : e ∈ l) (hfe : f e = v) :
    l.find? (fun x => f x == v) = some e := by
  induction l with
  | nil => cases he
  | cons x xs ih =>
    rw [List.map_cons, List.nodup_cons] at hnd
    by_cases hx : f x = v
    · have hex : e = x := by
        rcases List.mem_cons.mp he with rfl | hmem
        · rfl
        · exact absurd (hfe ▸ List.mem_map_of_mem f hmem) (hx ▸ hnd.1)
      subst hex
      simp [List.find?, hx]
    · have hmem : e ∈ xs := by
        rcases List.mem_cons.mp he with rfl | hmem
        · exact absurd hfe hx
        · exact hmem
      rw [List.find?_cons_of_neg _ (by simpa using hx)]
      exact ih hnd.2 hmem

theorem find?_append_left {l r : List ScheduleEntry} {q : ScheduleEntry → Bool}
    {e : ScheduleEntry} (hf : l.find? q = some e) : (l ++ r).find? q = some e := by
  induction l with
  | nil => simp [List.find?] at hf
  | cons x xs ih =>
    by_cases hx : q x = true
    · rw [List.find?_cons_of_pos _ hx] at hf
      rw [List.cons_append, List.find?_cons_of_pos _ hx]
      exact hf
    · rw [List.find?_cons_of_neg _ (by simpa using hx)] at hf
      rw [List.cons_append, List.find?_cons_of_neg _ (by simpa using hx)]
      exact ih hf

theorem removeFirst_append_left {l l' r : List ScheduleEntry} {e : ScheduleEntry}
    (hrm : removeFirst l e = some l') : removeFirst (l ++ r) e = some (l' ++ r) := by
  induction l generalizing l' with
  | nil => simp [removeFirst] at hrm
  | cons x xs ih =>
    by_cases hx : x = e
    · simp only [removeFirst, if_pos hx] at hrm
      cases hrm
      simp [removeFirst, hx]
    · simp only [removeFirst, if_neg hx, Option.map_eq_some'] at hrm
      obtain ⟨l'', hl'', rfl⟩ := hrm
      simp only [List.cons_append, removeFirst, if_neg hx, List.append_eq]
      rw [ih hl'']
      rfl

theorem cellTeacherCount_zero_of_free {s : Schedule} {t : String} {d : Day} {h : Nat}
    (hfree : isTeacherFreeAt s t d h = true) : cellTeacherCount (s d h) t = 0 := by
  apply List.countP_eq_zero.mpr
  intro e he
  have := (List.all_eq_true.mp hfree) e he
  simpa using this

theorem find?_teacher_none_of_free {s : Schedule} {t : String} {d : Day} {h : Nat}
    (hfree : isTeacherFreeAt s t d h = true) :
    (s d h).find? (fun e => e.teacher == t) = none := by
  apply find?_eq_none_of_all
  intro e he
  have := (List.all_eq_true.mp hfree) e he
  simpa using this

theorem canTeach_spec {s : Schedule} {t c : String} {d : Day} {h : Nat}
    (hcan : canTeacherTeachClassOnSlot s t c d h = true) :
    isTeacherFreeAt s t d h = true ∧ getTeacherHoursOnDay s t d < 5 ∧
      teacherClassHoursToday s t c d < 2 := by
  unfold canTeacherTeachClassOnSlot at hcan
  simp only [Bool.and_eq_true, decide_eq_true_eq] at hcan
  exact ⟨hcan.1.1, hcan.1.2, hcan.2⟩

/-- C4: in the busy-at-slot single-swap repair strategy
(`swap_strategy_for_being_busy_on_slot`), whenever the engine performs the
pair of swaps under the guards the code checks — the occupying professor `p`
teaches class `c` at the target slot, another teacher `q` teaches the same
class at a slot `(d, h2)` where `p` is free, `q` is free at the target slot,
`q` passes `can_teacher_teach_class_on_slot` for the target slot when moving
across days, and `p` passes it for `(d, h2)` — on a grid satisfying
invariants 1-6 both swaps complete and both resulting placements satisfy the
full slot-availability validation at the slots they are moved into. -/
theorem C4_pair_swap_placements_valid
    (s : Schedule) (p q c subjP : String) (day : Day) (hour : Nat) (d : Day) (h2 : Nat)
    (hhour : hour ∈ hours) (hh2 : h2 ∈ hours)
    (hinv1 : InvTeacherExclusive s) (hinv2 : InvClassExclusive s)
    (hinv3 : InvTeacherDailyCap s) (hinv4 : InvTeacherClassDailyCap s)
    (hinv5 : InvClassDailyCap s) (hinv6 : InvLastHourAllowList s)
    (hpcl : whatClassIsTaughtByTeacherAt s p day hour = some (c, subjP))
    (hq : ∃ e ∈ s d h2, e.teacher = q ∧ e.class_name = c)
    (hqfree : isTeacherFreeAt s q day hour = true)
    (hguard1 : d ≠ day → canTeacherTeachClassOnSlot s q c day hour = true)
    (hguard2 : canTeacherTeachClassOnSlot s p c d h2 = true) :
    ∃ s1 s2, swapClassForProfessor s day hour d h2 q = some (true, s1) ∧
      swapClassForProfessor s1 d h2 day hour p = some (true, s2) ∧
      placementValid s2 q c day hour ∧ placementValid s2 p c d h2 := by
  obtain ⟨hpfree2, hpday5, hpc2⟩ := canTeach_spec hguard2
  unfold whatClassIsTaughtByTeacherAt at hpcl
  rw [Option.map_eq_some'] at hpcl
  obtain ⟨eP, hfindP, hPcs⟩ := hpcl
  have hePc : eP.class_name = c := by
    have := congrArg Prod.fst hPcs
    simpa using this
  obtain ⟨hePmem, hePt⟩ := find?_teacher_spec hfindP
  obtain ⟨eQ, heQmem, heQt, heQc⟩ := hq
  have hqnep : q ≠ p := by
    intro hqp
    have := (List.all_eq_true.mp hqfree) eP hePmem
    simp [hePt, hqp] at this
  have hslotne : ¬(day = d ∧ hour = h2) := by
    rintro ⟨rfl, rfl⟩
    have := (List.all_eq_true.mp hpfree2) eP hePmem
    simp [hePt] at this
  have hslotne' : ¬(d = day ∧ h2 = hour) := fun hx => hslotne ⟨hx.1.symm, hx.2.symm⟩
  -- the first swap: q moves from (d, h2) into (day, hour)
  have hfq1 : (s day hour).find? (fun e => e.teacher == q) = none :=
    find?_teacher_none_of_free hqfree
  have hfq2 : (s d h2).find? (fun e => e.teacher == q) = some eQ :=
    find?_field_unique (fun e => e.teacher) (hinv1 d h2 hh2) heQmem heQt
  obtain ⟨l2, hl2⟩ := removeFirst_isSome_of_mem heQmem
  have hswap1 := swap_eq_of_second_only hfq1 hfq2 hl2
  have hrbQ : (⟨eQ.class_name, q, eQ.subject⟩ : ScheduleEntry) = eQ := entry_rebuild heQt
  set s1 := swapMoveResult s d h2 day hour eQ q l2 with hs1
  have hc1cell : s1 day hour = s day hour ++ [eQ] := by
    rw [hs1, swapMoveResult_at_to hslotne, hrbQ]
  have hc2cell : s1 d h2 = l2 := by rw [hs1, swapMoveResult_at_from hslotne']
  have hother1 : ∀ dd hh, ¬(dd = day ∧ hh = hour) → ¬(dd = d ∧ hh = h2) →
      s1 dd hh = s dd hh := by
    intro dd hh hA hB
    rw [hs1, swapMoveResult_other hB hA]
  -- cell counts at the two original cells
  have hq_hour_0 : (s day hour).countP (fun e => e.teacher == q) = 0 :=
    cellTeacherCount_zero_of_free hqfree
  have hp_hour_1 : (s day hour).countP (fun e => e.teacher == p) = 1 :=
    countP_field_eq_one (fun e => e.teacher) (hinv1 day hour hhour) hePmem hePt
  have hc_hour_1 : (s day hour).countP (fun e => e.class_name == c) = 1 :=
    countP_field_eq_one (fun e => e.class_name) (hinv2 day hour hhour) hePmem hePc
  have hq_h2_1 : (s d h2).countP (fun e => e.teacher == q) = 1 :=
    countP_field_eq_one (fun e => e.teacher) (hinv1 d h2 hh2) heQmem heQt
  have hp_h2_0 : (s d h2).countP (fun e => e.teacher == p) = 0 :=
    cellTeacherCount_zero_of_free hpfree2
  have hc_h2_1 : (s d h2).countP (fun e => e.class_name == c) = 1 :=
    countP_field_eq_one (fun e => e.class_name) (hinv2 d h2 hh2) heQmem heQc
  have hqc_hour_0 : (s day hour).countP (fun e => e.teacher == q && e.class_name == c) = 0 := by
    have hle := countP_le_of_imp (l := s day hour)
      (p := fun e => e.teacher == q && e.class_name == c) (q := fun e => e.teacher == q)
      (fun x _ hx => by simp only [Bool.and_eq_true] at hx; exact hx.1)
    omega
  have hpc_hour_1 : (s day hour).countP (fun e => e.teacher == p && e.class_name == c) = 1 := by
    have hle := countP_le_of_imp (l := s day hour)
      (p := fun e => e.teacher == p && e.class_name == c) (q := fun e => e.teacher == p)
      (fun x _ hx => by simp only [Bool.and_eq_true] at hx; exact hx.1)
    have hge := countP_pos_of_mem (fun e => e.teacher == p && e.class_name == c) hePmem
      (by simp [hePt, hePc])
    omega
  have hqc_h2_1 : (s d h2).countP (fun e => e.teacher == q && e.class_name == c) = 1 := by
    have hle := countP_le_of_imp (l := s d h2)
      (p := fun e => e.teacher == q && e.class_name == c) (q := fun e => e.teacher == q)
      (fun x _ hx => by simp only [Bool.and_eq_true] at hx; exact hx.1)
    have hge := countP_pos_of_mem (fun e => e.teacher == q && e.class_name == c) heQmem
      (by simp [heQt, heQc])
    omega
  have hpc_h2_0 : (s d h2).countP (fun e => e.teacher == p && e.class_name == c) = 0 := by
    have hle := countP_le_of_imp (l := s d h2)
      (p := fun e => e.teacher == p && e.class_name == c) (q := fun e => e.teacher == p)
      (fun x _ hx => by simp only [Bool.and_eq_true] at hx; exact hx.1)
    omega
  -- counts of the removal results
  have hl2_q0 : l2.countP (fun e => e.teacher == q) = 0 := by
    have h := removeFirst_countP hl2 (fun e => e.teacher == q)
    rw [hq_h2_1] at h
    simp only [heQt, beq_self_eq_true, if_true] at h
    omega
  have hl2_p0 : l2.countP (fun e => e.teacher == p) = 0 := by
    have h := removeFirst_countP hl2 (fun e => e.teacher == p)
    rw [hp_h2_0] at h
    omega
  have hl2_c0 : l2.countP (fun e => e.class_name == c) = 0 := by
    have h := removeFirst_countP hl2 (fun e => e.class_name == c)
    rw [hc_h2_1] at h
    simp only [heQc, beq_self_eq_true, if_true] at h
    omega
  have hl2_qc0 : l2.countP (fun e => e.teacher == q && e.class_name == c) = 0 := by
    have hle := countP_le_of_imp (l := l2)
      (p := fun e => e.teacher == q && e.class_name == c) (q := fun e => e.teacher == q)
      (fun x _ hx => by simp only [Bool.and_eq_true] at hx; exact hx.1)
    omega
  have hl2_pc0 : l2.countP (fun e => e.teacher == p && e.class_name == c) = 0 := by
    have hle := countP_le_of_imp (l := l2)
      (p := fun e => e.teacher == p && e.class_name == c) (q := fun e => e.teacher == p)
      (fun x _ hx => by simp only [Bool.and_eq_true] at hx; exact hx.1)
    omega
  -- the second swap: p moves from (day, hour) into (d, h2)
  have hfP1 : (s1 d h2).find? (fun e => e.teacher == p) = none := by
    rw [hc2cell]
    exact find?_eq_none_of_all
      (fun x hx => beq_teacher_false_of_ne (teacher_ne_of_countP_zero hl2_p0 x hx))
  have hfP2 : (s1 day hour).find? (fun e => e.teacher == p) = some eP := by
    rw [hc1cell]
    exact find?_append_left hfindP
  obtain ⟨lP, hlP⟩ := removeFirst_isSome_of_mem hePmem
  have hrmP : removeFirst (s1 day hour) eP = some (lP ++ [eQ]) := by
    rw [hc1cell]
    exact removeFirst_append_left hlP
  have hswap2 := swap_eq_of_second_only hfP1 hfP2 hrmP
  have hrbP : (⟨eP.class_name, p, eP.subject⟩ : ScheduleEntry) = eP := entry_rebuild hePt
  set s2 := swapMoveResult s1 day hour d h2 eP p (lP ++ [eQ]) with hs2
  have h2cell2 : s2 d h2 = l2 ++ [eP] := by
    rw [hs2, swapMoveResult_at_to hslotne', hc2cell, hrbP]
  have h2cell1 : s2 day hour = lP ++ [eQ] := by rw [hs2, swapMoveResult_at_from hslotne]
  have hother2 : ∀ dd hh, ¬(dd = day ∧ hh = hour) → ¬(dd = d ∧ hh = h2) →
      s2 dd hh = s dd hh := by
    intro dd hh hA hB
    rw [hs2, swapMoveResult_other hA hB]
    exact hother1 dd hh hA hB
  -- counts of the removal result at (day, hour)
  have hlP_p0 : lP.countP (fun e => e.teacher == p) = 0 := by
    have h := removeFirst_countP hlP (fun e => e.teacher == p)
    rw [hp_hour_1] at h
    simp only [hePt, beq_self_eq_true, if_true] at h
    omega
  have hlP_q0 : lP.countP (fun e => e.teacher == q) = 0 := by
    have h := removeFirst_countP hlP (fun e => e.teacher == q)
    rw [hq_hour_0] at h
    omega
  have hlP_c0 : lP.countP (fun e => e.class_name == c) = 0 := by
    have h := removeFirst_countP hlP (fun e => e.class_name == c)
    rw [hc_hour_1] at h
    simp only [hePc, beq_self_eq_true, if_true] at h
    omega
  have hlP_qc0 : lP.countP (fun e => e.teacher == q && e.class_name == c) = 0 := by
    have hle := countP_le_of_imp (l := lP)
      (p := fun e => e.teacher == q && e.class_name == c) (q := fun e => e.teacher == q)
      (fun x _ hx => by simp only [Bool.and_eq_true] at hx; exact hx.1)
    omega
  have hlP_pc0 : lP.countP (fun e => e.teacher == p && e.class_name == c) = 0 := by
    have hle := countP_le_of_imp (l := lP)
      (p := fun e => e.teacher == p && e.class_name == c) (q := fun e => e.teacher == p)
      (fun x _ hx => by simp only [Bool.and_eq_true] at hx; exact hx.1)
    omega
  -- counts of the two final cells
  have hfin1_q : (lP ++ [eQ]).countP (fun e => e.teacher == q) = 1 := by
    rw [List.countP_append, hlP_q0]
    simp [List.countP_cons, heQt]
  have hfin1_p : (lP ++ [eQ]).countP (fun e => e.teacher == p) = 0 := by
    rw [List.countP_append, hlP_p0]
    simp [List.countP_cons, heQt, hqnep]
  have hfin1_c : (lP ++ [eQ]).countP (fun e => e.class_name == c) = 1 := by
    rw [List.countP_append, hlP_c0]
    simp [List.countP_cons, heQc]
  have hfin1_qc : (lP ++ [eQ]).countP (fun e => e.teacher == q && e.class_name == c) = 1 := by
    rw [List.countP_append, hlP_qc0]
    simp [List.countP_cons, heQt, heQc]
  have hfin1_pc : (lP ++ [eQ]).countP (fun e => e.teacher == p && e.class_name == c) = 0 := by
    rw [List.countP_append, hlP_pc0]
    simp [List.countP_cons, heQt, hqnep]
  have hfin2_q : (l2 ++ [eP]).countP (fun e => e.teacher == q) = 0 := by
    rw [List.countP_append, hl2_q0]
    simp [List.countP_cons, hePt, Ne.symm hqnep]
  have hfin2_p : (l2 ++ [eP]).countP (fun e => e.teacher == p) = 1 := by
    rw [List.countP_append, hl2_p0]
    simp [List.countP_cons, hePt]
  have hfin2_c : (l2 ++ [eP]).countP (fun e => e.class_name == c) = 1 := by
    rw [List.countP_append, hl2_c0]
    simp [List.countP_cons, hePc]
  have hfin2_qc : (l2 ++ [eP]).countP (fun e => e.teacher == q && e.class_name == c) = 0 := by
    rw [List.countP_append, hl2_qc0]
    simp [List.countP_cons, hePt, Ne.symm hqnep]
  have hfin2_pc : (l2 ++ [eP]).countP (fun e => e.teacher == p && e.class_name == c) = 1 := by
    rw [List.countP_append, hl2_pc0]
    simp [List.countP_cons, hePt, hePc]
  -- the two-update normal form of the final grid
  have hptw : ∀ dd hh, s2 dd hh =
      updateCell (updateCell s day hour (lP ++ [eQ])) d h2 (l2 ++ [eP]) dd hh := by
    intro dd hh
    by_cases hB : dd = d ∧ hh = h2
    · obtain ⟨rfl, rfl⟩ := hB
      rw [h2cell2, updateCell_same]
    · by_cases hA : dd = day ∧ hh = hour
      · obtain ⟨rfl, rfl⟩ := hA
        rw [h2cell1, updateCell_other _ _ _ _ hB, updateCell_same]
      · rw [hother2 dd hh hA hB, updateCell_other _ _ _ _ hB, updateCell_other _ _ _ _ hA]
  have hsumeq : ∀ (dd : Day) (pr : ScheduleEntry → Bool),
      dayPredSum s2 dd pr =
        dayPredSum (updateCell (updateCell s day hour (lP ++ [eQ])) d h2 (l2 ++ [eP])) dd pr :=
    fun dd pr => dayPredSum_congr pr (fun hh _ => hptw dd hh)
  -- allow-list components
  have hallow1 : ∀ allowed, allowed14 day = some allowed → hour = 14 → c ∈ allowed := by
    intro allowed hal h14
    subst h14
    exact hePc ▸ hinv6 day eP hePmem allowed hal
  have hallow2 : ∀ allowed, allowed14 d = some allowed → h2 = 14 → c ∈ allowed := by
    intro allowed hal h14
    subst h14
    exact heQc ▸ hinv6 d eQ heQmem allowed hal
  -- uniform per-day sum equation for the two-cell update
  have hsum_all : ∀ (dd : Day) (pr : ScheduleEntry → Bool),
      dayPredSum s2 dd pr + (if dd = day then (s day hour).countP pr else 0)
          + (if dd = d then (s d h2).countP pr else 0)
        = dayPredSum s dd pr + (if dd = day then (lP ++ [eQ]).countP pr else 0)
          + (if dd = d then (l2 ++ [eP]).countP pr else 0) := by
    intro dd pr
    rw [hsumeq]
    by_cases hA : dd = day
    · subst hA
      by_cases hB : dd = d
      · -- both updates hit day dd
        subst hB
        have hne2 : ¬(dd = dd ∧ h2 = hour) := fun hx => hslotne ⟨rfl, hx.2.symm⟩
        have hE1 := dayPredSum_update_same s dd hour (lP ++ [eQ]) hhour pr
        have hE2 := dayPredSum_update_same (updateCell s dd hour (lP ++ [eQ])) dd h2
          (l2 ++ [eP]) hh2 pr
        rw [updateCell_other _ _ _ _ hne2] at hE2
        rw [if_pos rfl, if_pos rfl, if_pos rfl, if_pos rfl]
        omega
      · -- only the (day, hour) update hits day dd
        have hE1 := dayPredSum_update_same s dd hour (lP ++ [eQ]) hhour pr
        have hE2 := dayPredSum_update_other (updateCell s dd hour (lP ++ [eQ])) d h2
          (l2 ++ [eP]) (d := dd) hB pr
        rw [if_pos rfl, if_pos rfl, if_neg hB, if_neg hB]
        omega
    · by_cases hB : dd = d
      · -- only the (d, h2) update hits day dd
        subst hB
        have hne1 : ¬(dd = day ∧ h2 = hour) := fun hx => hA hx.1
        have hE1 := dayPredSum_update_other s day hour (lP ++ [eQ]) (d := dd) hA pr
        have hE2 := dayPredSum_update_same (updateCell s day hour (lP ++ [eQ])) dd h2
          (l2 ++ [eP]) hh2 pr
        rw [updateCell_other _ _ _ _ hne1] at hE2
        rw [if_neg hA, if_neg hA, if_pos rfl, if_pos rfl]
        omega
      · have hE1 := dayPredSum_update_other s day hour (lP ++ [eQ]) (d := dd) hA pr
        have hE2 := dayPredSum_update_other (updateCell s day hour (lP ++ [eQ])) d h2
          (l2 ++ [eP]) (d := dd) hB pr
        rw [if_neg hA, if_neg hA, if_neg hB, if_neg hB]
        omega
  refine ⟨s1, s2, hswap1, hswap2, ?_, ?_⟩
  · -- placement of q at (day, hour)
    refine ⟨?_, ?_, hallow1, ?_, ?_, ?_⟩
    · show (s2 day hour).countP (fun e => e.teacher == q) = 1
      rw [h2cell1]; exact hfin1_q
    · show (s2 day hour).countP (fun e => e.class_name == c) = 1
      rw [h2cell1]; exact hfin1_c
    · show dayPredSum s2 day (fun e => e.teacher == q) ≤ 5
      have hs := hsum_all day (fun e => e.teacher == q)
      rw [if_pos rfl, if_pos rfl, hq_hour_0, hfin1_q] at hs
      by_cases hdd : day = d
      · rw [if_pos hdd, if_pos hdd, hq_h2_1, hfin2_q] at hs
        have hB : dayPredSum s day (fun e => e.teacher == q) ≤ 5 := hinv3 q day
        omega
      · rw [if_neg hdd, if_neg hdd] at hs
        have hcan := canTeach_spec (hguard1 (fun h => hdd h.symm))
        have hB : dayPredSum s day (fun e => e.teacher == q) < 5 := hcan.2.1
        omega
    · show dayPredSum s2 day (fun e => e.class_name == c) ≤ maxHoursAllowed day c
      have hs := hsum_all day (fun e => e.class_name == c)
      rw [if_pos rfl, if_pos rfl, hc_hour_1, hfin1_c] at hs
      have hB : dayPredSum s day (fun e => e.class_name == c) ≤ maxHoursAllowed day c :=
        hinv5 c day
      by_cases hdd : day = d
      · rw [if_pos hdd, if_pos hdd, hc_h2_1, hfin2_c] at hs
        omega
      · rw [if_neg hdd, if_neg hdd] at hs
        omega
    · show dayPredSum s2 day (fun e => e.teacher == q && e.class_name == c) ≤ 2
      have hs := hsum_all day (fun e => e.teacher == q && e.class_name == c)
      rw [if_pos rfl, if_pos rfl, hqc_hour_0, hfin1_qc] at hs
      by_cases hdd : day = d
      · rw [if_pos hdd, if_pos hdd, hqc_h2_1, hfin2_qc] at hs
        have hB : dayPredSum s day (fun e => e.teacher == q && e.class_name == c) ≤ 2 :=
          hinv4 q c day
        omega
      · rw [if_neg hdd, if_neg hdd] at hs
        have hcan := canTeach_spec (hguard1 (fun h => hdd h.symm))
        have hB : dayPredSum s day (fun e => e.teacher == q && e.class_name == c) < 2 :=
          hcan.2.2
        omega
  · -- placement of p at (d, h2)
    refine ⟨?_, ?_, hallow2, ?_, ?_, ?_⟩
    · show (s2 d h2).countP (fun e => e.teacher == p) = 1
      rw [h2cell2]; exact hfin2_p
    · show (s2 d h2).countP (fun e => e.class_name == c) = 1
      rw [h2cell2]; exact hfin2_c
    · show dayPredSum s2 d (fun e => e.teacher == p) ≤ 5
      have hs := hsum_all d (fun e => e.teacher == p)
      rw [if_pos rfl, if_pos rfl, hp_h2_0, hfin2_p] at hs
      have hB : dayPredSum s d (fun e => e.teacher == p) < 5 := hpday5
      by_cases hdd : d = day
      · rw [if_pos hdd, if_pos hdd, hp_hour_1, hfin1_p] at hs
        omega
      · rw [if_neg hdd, if_neg hdd] at hs
        omega
    · show dayPredSum s2 d (fun e => e.class_name == c) ≤ maxHoursAllowed d c
      have hs := hsum_all d (fun e => e.class_name == c)
      rw [if_pos rfl, if_pos rfl, hc_h2_1, hfin2_c] at hs
      have hB : dayPredSum s d (fun e => e.class_name == c) ≤ maxHoursAllowed d c :=
        hinv5 c d
      by_cases hdd : d = day
      · rw [if_pos hdd, if_pos hdd, hc_hour_1, hfin1_c] at hs
        omega
      · rw [if_neg hdd, if_neg hdd] at hs
        omega
    · show dayPredSum s2 d (fun e => e.teacher == p && e.class_name == c) ≤ 2
      have hs := hsum_all d (fun e => e.teacher == p && e.class_name == c)
      rw [if_pos rfl, if_pos rfl, hpc_h2_0, hfin2_pc] at hs
      have hB : dayPredSum s d (fun e => e.teacher == p && e.class_name == c) < 2 := hpc2
      by_cases hdd : d = day
      · rw [if_pos hdd, if_pos hdd, hpc_hour_1, hfin1_pc] at hs
        omega
      · rw [if_neg hdd, if_neg hdd] at hs
        omega

theorem dayPredSum_le_lengths (s : Schedule) (d : Day) (pr : ScheduleEntry → Bool) :
    dayPredSum s d pr ≤ (hours.map (fun h => (s d h).length)).sum := by
  unfold dayPredSum
  apply List.sum_le_sum
  intro h _
  exact List.countP_le_length _

theorem maxHoursAllowed_ge_six (d : Day) (c : String) : 6 ≤ maxHoursAllowed d c := by
  unfold maxHoursAllowed
  split
  · omega
  · split <;> omega

/-- Witness for C4 at a concrete schedule. -/
theorem C4_witness :
    ∃ s1 s2,
      swapClassForProfessor pairSwapState .LUN 8 .MAR 9 "q1" = some (true, s1) ∧
      swapClassForProfessor s1 .MAR 9 .LUN 8 "p1" = some (true, s2) ∧
      placementValid s2 "q1" "X" .LUN 8 ∧ placementValid s2 "p1" "X" .MAR 9 :=
  C4_pair_swap_placements_valid pairSwapState "p1" "q1" "X" "m" .LUN 8 .MAR 9
    (by decide) (by decide)
    (by intro d; cases d <;> decide)
    (by intro d; cases d <;> decide)
    (by
      intro t d
      refine le_trans (dayPredSum_le_lengths pairSwapState d (fun e => e.teacher == t)) ?_
      cases d <;> decide)
    (by
      intro t c d
      refine le_trans
        (dayPredSum_le_lengths pairSwapState d (fun e => e.teacher == t && e.class_name == c)) ?_
      cases d <;> decide)
    (by
      intro c d
      refine le_trans (le_trans
        (dayPredSum_le_lengths pairSwapState d (fun e => e.class_name == c))
        ?_) (maxHoursAllowed_ge_six d c)
      cases d <;> decide)
    (by intro d e he; exact absurd he (by cases d <;> simp [pairSwapState]))
    (by decide) (by decide) (by decide) (fun _ => by decide) (by decide)

theorem checkAfterAssign_abort {s0 s' : Schedule}
    (h : checkAfterAssign s0 = some (s', .abortedRun)) :
    sanityCheckSchedule s' = false := by
  unfold checkAfterAssign at h
  split at h
  · simp at h
  · next hsan =>
    simp only [Option.some.injEq, Prod.mk.injEq] at h
    cases hs : sanityCheckSchedule s0 with
    | false => rw [← h.1]; exact hs
    | true => exact absurd hs hsan

theorem tryProfs_abort {day : Day} {hour : Nat} {cmiss : String}
    {profs : List (String × String)} {s s' : Schedule}
    (h : tryProfs day hour cmiss s profs = some (s', .abortedRun)) :
    sanityCheckSchedule s' = false := by
  induction profs generalizing s with
  | nil => simp [tryProfs] at h
  | cons pr rest ih =>
    unfold tryProfs at h
    split at h
    · exact ih h
    · split at h
      · split at h
        · exact checkAfterAssign_abort h
        · split at h
          · exact absurd h (by simp)
          · exact checkAfterAssign_abort h
          · exact ih h
      · split at h
        · exact absurd h (by simp)
        · exact checkAfterAssign_abort h
        · exact ih h

theorem tryClasses_abort {day : Day} {hour : Nat} {fa : List FailedAssignment}
    {cls : List String} {s s' : Schedule}
    (h : tryClasses day hour fa s cls = some (s', true)) :
    sanityCheckSchedule s' = false := by
  induction cls generalizing s with
  | nil => simp [tryClasses] at h
  | cons cm rest ih =>
    unfold tryClasses at h
    split at h
    · exact absurd h (by simp)
    · next heq =>
      simp only [Option.some.injEq, Prod.mk.injEq] at h
      exact h.1 ▸ tryProfs_abort heq
    · exact ih h

theorem trySlots_abort {fa : List FailedAssignment}
    {items : List ((Day × Nat) × List String)} {s s' : Schedule}
    (h : trySlots fa s items = some (s', true)) :
    sanityCheckSchedule s' = false := by
  induction items generalizing s with
  | nil => simp [trySlots] at h
  | cons item rest ih =>
    unfold trySlots at h
    split at h
    · exact absurd h (by simp)
    · next heq =>
      simp only [Option.some.injEq, Prod.mk.injEq] at h
      exact h.1 ▸ tryClasses_abort heq
    · exact ih h

/-- C3 (amended): when a sanity check fails after a repair mutation, the
current invocation of `insert_missing_classes_via_swap_strategy` abandons
its remaining work and returns at once, leaving a schedule whose sanity
check fails; but no error value reaches the caller (the function returns
`None` either way) and the module-level tryout loop keeps invoking the
repair pass, so further repair mutations are performed on the schedule in
the same run. -/
theorem C3_abort_returns_failing_schedule (st st' : SchedulerState)
    (h : insertMissingClassesViaSwapStrategy st = some (st', true)) :
    sanityCheckSchedule st'.schedule = false := by
  unfold insertMissingClassesViaSwapStrategy at h
  rw [Option.map_eq_some'] at h
  obtain ⟨r, hr, heq⟩ := h
  obtain ⟨sch1, b⟩ := r
  rw [Prod.mk.injEq] at heq
  obtain ⟨h1, h2⟩ := heq
  subst h2
  rw [← h1]
  exact trySlots_abort hr

/-- Witness for C3: on `repairState0` the repair pass aborts after a failed
sanity check, and the returned schedule indeed fails the sanity check. -/
theorem C3_witness :
    ∃ st1, insertMissingClassesViaSwapStrategy repairState0 = some (st1, true) ∧
      sanityCheckSchedule st1.schedule = false := by
  have h : (insertMissingClassesViaSwapStrategy repairState0).map Prod.snd = some true := rfl
  rw [Option.map_eq_some'] at h
  obtain ⟨r, hr, hb⟩ := h
  obtain ⟨st1, b⟩ := r
  have hb2 : b = true := hb
  subst hb2
  exact ⟨st1, hr, C3_abort_returns_failing_schedule repairState0 st1 hr⟩

/-- Counterexample to C3 as stated: on `repairState0` the repair pass aborts
(the flag is `true`) with the Tuesday 8:00 cell still empty, yet the
module-level tryout loop, which never sees an error, keeps invoking the
repair pass, and by the end of the run two further placements have been made
in that very cell.  So further repair mutations are performed on the
schedule in the same run and no error is surfaced. -/
theorem C3_counterexample_tryout_loop_mutates_after_abort :
    (insertMissingClassesViaSwapStrategy repairState0).map
        (fun r => (r.2, r.1.schedule .MAR 8)) = some (true, []) ∧
    (tryoutLoop maxTryouts repairState0).map (fun st => st.schedule .MAR 8) =
      some [⟨"X", "P", "s"⟩, ⟨"Y", "Q", "s"⟩] := ⟨rfl, rfl⟩

end Oraccio
